import Mathlib

/-!
# name-value: typed access to a case-insensitive map of names to values

A shallow embedding of `name-value.go` (package `namevalue`).

* A Go `string` is a Lean `String`; the algorithms run on its list of characters.  The embedding
  covers the strings that are valid UTF-8, on which the byte-wise library routines used here
  (`strings.Replace`, `strings.Split`, `strings.Contains`, `strconv.ParseInt`) and the rune-wise ones
  (`regexp`, `strings.EqualFold`) agree with their character-wise models.
* A Go `map[string]any` is an association list.  The order of the list is the order in which a
  `range` statement visits the entries, which Go leaves unspecified.
* A method with a pointer receiver returns its results together with the receiver after the call.
* What the repository imports but does not define (Unicode case tables, float parsing and
  printing, the decimal package, time formatting, the width of `int`) is a field of `GoLib`.
-/

set_option autoImplicit false

namespace NameValue

/-! ## Values of type `any` -/

/-- An IEEE-754 double precision number, carried by its bit pattern -/
structure float64 where
  bits : Nat
deriving DecidableEq, Repr

/-- An IEEE-754 single precision number, carried by its bit pattern -/
structure float32 where
  bits : Nat
deriving DecidableEq, Repr

/-- A `time.Time`, carried by its offset in nanoseconds from the zero time -/
structure Time where
  nanos : Int
deriving DecidableEq, Repr

/-- A `decimal.Decimal` of the shopspring package: `value * 10 ^ exp`, where the zero value
`Decimal{}` has no `value` at all -/
structure ssd.Decimal where
  value : Option Int
  exp : Int
deriving DecidableEq, Repr

/-- The zero value `Decimal{}` -/
def ssd.Decimal.zero : ssd.Decimal := ⟨none, 0⟩

/-- The signed integer types of Go -/
inductive Signed
  | int | int8 | int16 | int32 | int64
deriving DecidableEq, Repr

/-- The unsigned integer types of Go that the package names (a `uintptr`, which it never names,
is a `Value.other`) -/
inductive Unsigned
  | uint | uint8 | uint16 | uint32 | uint64
deriving DecidableEq, Repr

/-- A value of interface type `any`, by dynamic type.  A pointer is `none` when it is nil and
`some x` when it points to `x`; `other` stands for every dynamic type the package never names -/
inductive Value
  | nil
  | str (s : String)
  | sint (k : Signed) (n : Int)
  | uint (k : Unsigned) (n : Nat)
  | float32 (f : float32)
  | float64 (f : float64)
  | bool (b : Bool)
  | time (t : Time)
  | decimal (d : ssd.Decimal)
  | ptrStr (p : Option String)
  | ptrSint (k : Signed) (p : Option Int)
  | ptrUint (k : Unsigned) (p : Option Nat)
  | ptrFloat32 (p : Option float32)
  | ptrFloat64 (p : Option float64)
  | ptrBool (p : Option Bool)
  | ptrTime (p : Option Time)
  | other (tag : Nat)
deriving DecidableEq, Repr

/-! ## The imported libraries -/

/-- The two ways `strconv` fails -/
inductive NumError
  | errSyntax
  | errRange
deriving DecidableEq, Repr

/-- What the package imports and does not define -/
structure GoLib where
  /-- `strings.ToLower` -/
  toLower : String → String
  /-- The representative of a rune in its orbit under `unicode.SimpleFold`; `strings.EqualFold`
  holds of two strings when they have as many runes and the runes at each place share an orbit -/
  foldRune : Char → Char
  /-- Whether `int` has 64 bits (otherwise 32) -/
  is64 : Bool
  /-- `strconv.ParseFloat(s, 64)`: the value returned and the error, if any -/
  parseFloat : String → float64 × Option NumError
  /-- `decimal.NewFromString`, `none` when it returns an error -/
  decimalFromString : String → Option ssd.Decimal
  /-- `decimal.NewFromFloat` -/
  decimalFromFloat : float64 → ssd.Decimal
  /-- The conversion `float64(f)` of a `float32` -/
  widen : float32 → float64
  /-- `fmt.Sprintf("%f", f)` for a `float32` -/
  formatFloat32 : float32 → String
  /-- `fmt.Sprintf("%f", f)` for a `float64` -/
  formatFloat64 : float64 → String
  /-- `t.Format(time.RFC3339)` -/
  formatTime : Time → String

/-- The width of `int` in bits -/
def GoLib.intSize (lib : GoLib) : Nat := if lib.is64 then 64 else 32

/-- `strings.EqualFold` -/
def GoLib.EqualFold (lib : GoLib) (s t : String) : Bool :=
  s.data.map lib.foldRune == t.data.map lib.foldRune

/-- Lower case of an ASCII letter, every other character unchanged -/
def asciiLowerChar (c : Char) : Char :=
  if 65 ≤ c.toNat ∧ c.toNat ≤ 90 then Char.ofNat (c.toNat + 32) else c

/-- A library for texts in ASCII: case mapping and folding of the letters `A` to `Z`, 64-bit
`int`; the float and decimal routines accept nothing -/
def asciiLib : GoLib where
  toLower := fun s => ⟨s.data.map asciiLowerChar⟩
  foldRune := asciiLowerChar
  is64 := true
  parseFloat := fun _ => (⟨0⟩, some NumError.errSyntax)
  decimalFromString := fun _ => none
  decimalFromFloat := fun _ => ssd.Decimal.zero
  widen := fun f => ⟨f.bits⟩
  formatFloat32 := fun _ => ""
  formatFloat64 := fun _ => ""
  formatTime := fun _ => ""

/-! ## Maps -/

/-- A `map[string]any` -/
abbrev GoMap := List (String × Value)

/-- The comma-ok index expression `v, ok := m[k]` -/
def mapLookup : GoMap → String → Value × Bool
  | [], _ => (Value.nil, false)
  | (k', v) :: t, k => if k' = k then (v, true) else mapLookup t k

/-- The index expression `m[k]` -/
def mapIndex (m : GoMap) (k : String) : Value := (mapLookup m k).1

/-- The assignment `m[k] = v` -/
def mapSet : GoMap → String → Value → GoMap
  | [], k, v => [(k, v)]
  | (k', v') :: t, k, v => if k' = k then (k', v) :: t else (k', v') :: mapSet t k v

/-- The statement `delete(m, k)` -/
def mapDelete (m : GoMap) (k : String) : GoMap := m.filter (fun e => e.1 ≠ k)

/-! ## The collection -/

/-- The struct `NameValues` -/
structure NameValues where
  Pair : GoMap
  prepared : Bool
deriving DecidableEq, Repr

/-- First loop of `prepare`: every key `n` met moves to `np` under its lower case and leaves
`Pair`.  The state is `(np, Pair)` -/
def prepareMove (lib : GoLib) : List String → GoMap × GoMap → GoMap × GoMap
  | [], st => st
  | n :: ns, (np, pair) =>
    prepareMove lib ns (mapSet np (lib.toLower n) (mapIndex pair n), mapDelete pair n)

/-- Second loop of `prepare`: every key of `np` is assigned in `Pair` -/
def prepareCopy (np : GoMap) : List String → GoMap → GoMap
  | [], pair => pair
  | n :: ns, pair => prepareCopy np ns (mapSet pair n (mapIndex np n))

/-- The method `prepare` -/
def prepare (lib : GoLib) (nvp : NameValues) : NameValues :=
  let st := prepareMove lib (nvp.Pair.map Prod.fst) ([], nvp.Pair)
  { Pair := prepareCopy st.1 (st.1.map Prod.fst) st.2, prepared := true }

/-- The guard `if !nvp.prepared { nvp.prepare() }` that opens every lookup -/
def ensurePrepared (lib : GoLib) (nvp : NameValues) : NameValues :=
  if nvp.prepared then nvp else prepare lib nvp

/-- The method `Exists` -/
def Exists (lib : GoLib) (nvp : NameValues) (name : String) : Bool × NameValues :=
  let nvp := ensurePrepared lib nvp
  let name := lib.toLower name
  ((mapLookup nvp.Pair name).2, nvp)

/-- The method `Plain` -/
def Plain (lib : GoLib) (nvp : NameValues) (name : String) : (Value × Bool) × NameValues :=
  let nvp := ensurePrepared lib nvp
  let name := lib.toLower name
  (mapLookup nvp.Pair name, nvp)

/-! ## strconv -/

/-- The value of a decimal digit, `none` for every other character -/
def digitVal (c : Char) : Option Nat :=
  if 48 ≤ c.toNat ∧ c.toNat ≤ 57 then some (c.toNat - 48) else none

/-- The loop of `strconv.ParseUint` in base 10 over the text left, `n` being the `uint64` read so
far: a character that is not a digit is a syntax error; a number that leaves 64 bits or exceeds
`maxVal` is a range error with value `maxVal`, whatever follows -/
def parseUintLoop (maxVal : Nat) : List Char → Nat → Nat × Option NumError
  | [], n => (n, none)
  | c :: cs, n =>
    match digitVal c with
    | none => (0, some NumError.errSyntax)
    | some d =>
      if (2 ^ 64 - 1) / 10 + 1 ≤ n then (maxVal, some NumError.errRange)
      else
        let n10 := n * 10 % 2 ^ 64
        let n1 := (n10 + d) % 2 ^ 64
        if n1 < n10 ∨ maxVal < n1 then (maxVal, some NumError.errRange)
        else parseUintLoop maxVal cs n1

/-- `strconv.ParseUint(s, 10, bitSize)`: the value returned and the error, if any -/
def ParseUint (s : List Char) (bitSize : Nat) : Nat × Option NumError :=
  if s = [] then (0, some NumError.errSyntax) else parseUintLoop (2 ^ bitSize - 1) s 0

/-- `strconv.ParseInt(s, 10, bitSize)`: the value returned and the error, if any -/
def ParseInt (s : List Char) (bitSize : Nat) : Int × Option NumError :=
  match s with
  | [] => (0, some NumError.errSyntax)
  | c :: t =>
    let neg : Bool := c = '-'
    let un := ParseUint (if c = '+' ∨ c = '-' then t else c :: t) bitSize
    if un.2 = some NumError.errSyntax then (0, some NumError.errSyntax)
    else
      let cutoff : Nat := 2 ^ (bitSize - 1)
      if neg = false ∧ cutoff ≤ un.1 then ((cutoff : Int) - 1, some NumError.errRange)
      else if neg = true ∧ cutoff < un.1 then (-(cutoff : Int), some NumError.errRange)
      else (if neg then -(un.1 : Int) else (un.1 : Int), none)

/-- `strconv.Atoi(s)`, which gives what `ParseInt(s, 10, 0)` gives at the width of `int` (its fast
path for short texts computes the same result) -/
def Atoi (lib : GoLib) (s : String) : Int × Option NumError := ParseInt s.data lib.intSize

/-- The character of a decimal digit -/
def digitChar (d : Nat) : Char := Char.ofNat (48 + d)

/-- The digits of `n` in base 10 in front of `acc`, most significant first -/
def formatDigits : Nat → Nat → List Char → List Char
  | 0, _, acc => acc
  | fuel + 1, n, acc =>
    if n < 10 then digitChar n :: acc else formatDigits fuel (n / 10) (digitChar (n % 10) :: acc)

/-- `strconv.FormatUint(n, 10)` -/
def FormatUint (n : Nat) : String := ⟨formatDigits (n + 1) n []⟩

/-- `strconv.FormatInt(n, 10)` -/
def FormatInt (n : Int) : String :=
  if n < 0 then ⟨'-' :: formatDigits (n.natAbs + 1) n.natAbs []⟩ else FormatUint n.natAbs

/-! ## strings -/

/-- Whether `s` begins with `p` (`strings.HasPrefix`) -/
def startsWith : List Char → List Char → Bool
  | _, [] => true
  | [], _ :: _ => false
  | c :: s, d :: p => c = d && startsWith s p

/-- Whether `sub` occurs in `s` -/
def containsFrom (sub : List Char) : List Char → Bool
  | [] => startsWith [] sub
  | c :: t => startsWith (c :: t) sub || containsFrom sub t

/-- `strings.Contains(s, substr)` -/
def Contains (s substr : String) : Bool := containsFrom substr.data s.data

/-- The scan of `strings.Replace(s, old, new, -1)` for a non-empty `old`: `skip` characters are
still part of the occurrence just replaced; after them, the leftmost occurrence of `old` is
replaced by `new` and the scan goes on behind it -/
def replaceFrom (old new : List Char) : Nat → List Char → List Char
  | _, [] => []
  | skip + 1, _ :: t => replaceFrom old new skip t
  | 0, c :: t =>
    if startsWith (c :: t) old then new ++ replaceFrom old new (old.length - 1) t
    else c :: replaceFrom old new 0 t

/-- `strings.Replace(s, old, new, -1)`; an empty `old` matches before every character and at the
end -/
def Replace (s old new : String) : String :=
  if old.data = [] then ⟨new.data ++ (s.data.map (fun c => c :: new.data)).flatten⟩
  else ⟨replaceFrom old.data new.data 0 s.data⟩

/-- `strings.ReplaceAll(s, old, new)` -/
def ReplaceAll (s old new : String) : String := Replace s old new

/-- The scan of `strings.Split(s, sep)` for a non-empty `sep`: the segments of what is left, the
first of them continuing the segment in progress -/
def splitFrom (sep : List Char) : Nat → List Char → List (List Char)
  | _, [] => [[]]
  | skip + 1, _ :: t => splitFrom sep skip t
  | 0, c :: t =>
    if startsWith (c :: t) sep then [] :: splitFrom sep (sep.length - 1) t
    else
      match splitFrom sep 0 t with
      | seg :: segs => (c :: seg) :: segs
      | [] => [[c]]

/-- `strings.Split(s, sep)`; an empty `sep` splits after every character -/
def Split (s sep : String) : List String :=
  if sep.data = [] then s.data.map (fun c => ⟨[c]⟩)
  else (splitFrom sep.data 0 s.data).map (fun seg => ⟨seg⟩)

/-- `strings.Join(elems, sep)` -/
def Join (elems : List String) (sep : String) : String :=
  ⟨List.intercalate sep.data (elems.map (fun e => e.data))⟩

/-! ## The decimal package -/

/-- `decimal.NewFromString`: every failing call returns `Decimal{}` with its error; the second
component tells whether there is an error -/
def ssd.NewFromString (lib : GoLib) (value : String) : ssd.Decimal × Bool :=
  match lib.decimalFromString value with
  | some d => (d, false)
  | none => (ssd.Decimal.zero, true)

/-- `decimal.NewFromInt` -/
def ssd.NewFromInt (value : Int) : ssd.Decimal := ⟨some value, 0⟩

/-! ## The typed accessors -/

/-- The method `String` (named `String_`, as `String` is the type) -/
def String_ (lib : GoLib) (nvp : NameValues) (name : String) : (String × Bool) × NameValues :=
  let nvp := ensurePrepared lib nvp
  let r := mapLookup nvp.Pair (lib.toLower name)
  if r.2 = false then (("", r.2), nvp)
  else
    match r.1 with
    | Value.str val => ((val, r.2), nvp)
    | _ => (("", r.2), nvp)

/-- The method `Strings` -/
def Strings (lib : GoLib) (nvp : NameValues) (name : String) : List String × NameValues :=
  let r := String_ lib nvp name
  if r.1.2 = false then ([], r.2)
  else if Contains r.1.1 "," then (Split r.1.1 ",", r.2)
  else ([r.1.1], r.2)

/-- The method `Int` (named `Int_`, as `Int` is the type) -/
def Int_ (lib : GoLib) (nvp : NameValues) (name : String) : (Int × Bool) × NameValues :=
  let nvp := ensurePrepared lib nvp
  let r := mapLookup nvp.Pair (lib.toLower name)
  if r.2 = false then ((0, r.2), nvp)
  else
    match r.1 with
    | Value.sint Signed.int val => ((val, r.2), nvp)
    | Value.str str => (((Atoi lib str).1, r.2), nvp)
    | _ => ((0, r.2), nvp)

/-- The method `Int64` -/
def Int64 (lib : GoLib) (nvp : NameValues) (name : String) : (Int × Bool) × NameValues :=
  let nvp := ensurePrepared lib nvp
  let r := mapLookup nvp.Pair (lib.toLower name)
  if r.2 = false then ((0, r.2), nvp)
  else
    match r.1 with
    | Value.sint Signed.int64 val => ((val, r.2), nvp)
    | Value.str str => (((ParseInt str.data 64).1, r.2), nvp)
    | _ => ((0, r.2), nvp)

/-- The method `Bool` (named `Bool_`, as `Bool` is the type) -/
def Bool_ (lib : GoLib) (nvp : NameValues) (name : String) : (Bool × Bool) × NameValues :=
  let r := String_ lib nvp name
  if r.1.2 = false then ((r.1.2, r.1.2), r.2)
  else
    ((decide (r.1.1 = "true") || decide (r.1.1 = "yes") || decide (r.1.1 = "1")
      || decide (r.1.1 = "-1") || decide (r.1.1 = "on"), true), r.2)

/-- The method `Float64` -/
def Float64 (lib : GoLib) (nvp : NameValues) (name : String) : (float64 × Bool) × NameValues :=
  let nvp := ensurePrepared lib nvp
  let r := mapLookup nvp.Pair (lib.toLower name)
  if r.2 = false then ((⟨0⟩, r.2), nvp)
  else
    match r.1 with
    | Value.float64 val => ((val, r.2), nvp)
    | Value.str str => (((lib.parseFloat str).1, r.2), nvp)
    | _ => ((⟨0⟩, r.2), nvp)

/-- The method `Decimal` -/
def Decimal (lib : GoLib) (nvp : NameValues) (name : String) : (ssd.Decimal × Bool) × NameValues :=
  let nvp := ensurePrepared lib nvp
  let r := mapLookup nvp.Pair (lib.toLower name)
  if r.2 = false then ((ssd.Decimal.zero, r.2), nvp)
  else
    match r.1 with
    | Value.str t =>
      (((ssd.NewFromString lib (ReplaceAll (ReplaceAll t "," "") " " "")).1, r.2), nvp)
    | Value.sint Signed.int t => ((ssd.NewFromInt t, r.2), nvp)
    | Value.sint Signed.int64 t => ((ssd.NewFromInt t, r.2), nvp)
    | Value.float32 t => ((lib.decimalFromFloat (lib.widen t), r.2), nvp)
    | Value.float64 t => ((lib.decimalFromFloat t, r.2), nvp)
    | Value.decimal t => ((t, r.2), nvp)
    | _ => ((ssd.Decimal.zero, r.2), nvp)

/-! ## Interpolation -/

/-- The function `anyToStr` -/
def anyToStr (lib : GoLib) : Value → String
  | Value.nil => ""
  | Value.str t => t
  | Value.sint _ t => FormatInt t
  | Value.uint _ t => FormatUint t
  | Value.float32 t => lib.formatFloat32 t
  | Value.float64 t => lib.formatFloat64 t
  | Value.bool t => if t then "true" else "false"
  | Value.time t => "'" ++ lib.formatTime t ++ "'"
  | Value.ptrStr none => ""
  | Value.ptrStr (some t) => t
  | Value.ptrSint _ none => "0"
  | Value.ptrSint _ (some t) => FormatInt t
  | Value.ptrUint _ none => "0"
  | Value.ptrUint _ (some t) => FormatUint t
  | Value.ptrFloat32 none => "0"
  | Value.ptrFloat32 (some t) => lib.formatFloat32 t
  | Value.ptrFloat64 none => "0"
  | Value.ptrFloat64 (some t) => lib.formatFloat64 t
  | Value.ptrBool none => "false"
  | Value.ptrBool (some t) => if t then "true" else "false"
  | Value.ptrTime none => "'" ++ lib.formatTime ⟨0⟩ ++ "'"
  | Value.ptrTime (some t) => "'" ++ lib.formatTime t ++ "'"
  | Value.decimal _ => ""
  | Value.other _ => ""

/-- The class `\w` of the regular expression: an ASCII letter, a digit or `_` -/
def wordChar (c : Char) : Bool :=
  decide ((48 ≤ c.toNat ∧ c.toNat ≤ 57) ∨ (65 ≤ c.toNat ∧ c.toNat ≤ 90) ∨ c.toNat = 95
    ∨ (97 ≤ c.toNat ∧ c.toNat ≤ 122))

/-- A match of `INTERPOLATE_PATTERN` at the start of the text: its word, the longest run of
word characters behind the dollar sign and the opening brace, which a closing brace must
follow -/
def matchHere : List Char → Option (List Char)
  | c :: d :: t =>
    if c = '$' ∧ d = '\x7b' then
      match t.dropWhile wordChar with
      | e :: _ => if e = '\x7d' then some (t.takeWhile wordChar) else none
      | [] => none
    else none
  | _ => none

/-- The scan of `re.FindAllString(base, -1)`: `skip` characters still belong to the match just
found; after them, every place is tried in turn and a match is the text of its
`w.length + 3` characters -/
def findAllFrom : Nat → List Char → List (List Char)
  | _, [] => []
  | skip + 1, _ :: t => findAllFrom skip t
  | 0, c :: t =>
    match matchHere (c :: t) with
    | some w => (c :: t).take (w.length + 3) :: findAllFrom (w.length + 2) t
    | none => findAllFrom 0 t

/-- `regexp.MustCompile(INTERPOLATE_PATTERN).FindAllString(base, -1)` -/
def FindAllString (base : String) : List String := (findAllFrom 0 base.data).map (fun m => ⟨m⟩)

/-- The inner loop of `Interpolate` with the two assignments before it: the string form and the
value of the first entry met whose name in `$\x7b \x7d` equals the match under `EqualFold`,
and `"0"` twice when the loop meets none -/
def interpolateFind (lib : GoLib) (m : String) : GoMap → String × Value
  | [] => ("0", Value.str "0")
  | (n, v) :: t =>
    if lib.EqualFold m ("$\x7b" ++ n ++ "\x7d") then (anyToStr lib v, v)
    else interpolateFind lib m t

/-- The outer loop of `Interpolate` over the matches left, with `nstr` and the values filled in
so far -/
def interpolateLoop (lib : GoLib) (pair : GoMap) : List String → String → List Value →
    String × List Value
  | [], nstr, vals => (nstr, vals)
  | m :: ms, nstr, vals =>
    interpolateLoop lib pair ms (Replace nstr m (interpolateFind lib m pair).1)
      (vals ++ [(interpolateFind lib m pair).2])

/-- The function `Interpolate` -/
def Interpolate (lib : GoLib) (base : String) (nv : NameValues) : String × List Value :=
  interpolateLoop lib nv.Pair (FindAllString base) base []

/-! ## Notions the claims are stated with -/

/-- The text with its commas and spaces removed -/
def stripSeparators (s : String) : String := ⟨s.data.filter (fun c => c ≠ ',' ∧ c ≠ ' ')⟩

/-- No two keys of the map are equal under `EqualFold` -/
def FoldDistinct (lib : GoLib) (m : GoMap) : Prop :=
  m.Pairwise (fun a b => lib.EqualFold a.1 b.1 = false)

/-- The replacement the specification gives a placeholder: the string form of the value of the
entry whose name equals the word case-insensitively, `"0"` when there is none -/
def replacementOf (lib : GoLib) (pair : GoMap) (w : List Char) : List Char :=
  match pair.find? (fun e => lib.EqualFold ⟨w⟩ e.1) with
  | some e => (anyToStr lib e.2).data
  | none => ['0']

/-- Simultaneous substitution as the specification words it: every non-overlapping match of the
pattern, found from left to right, gives way to `σ` of its word, and every character outside
the matches stays -/
def substituteFrom (σ : List Char → List Char) : Nat → List Char → List Char
  | _, [] => []
  | skip + 1, _ :: t => substituteFrom σ skip t
  | 0, c :: t =>
    match matchHere (c :: t) with
    | some w => σ w ++ substituteFrom σ (w.length + 2) t
    | none => c :: substituteFrom σ 0 t

/-- The template with all its placeholders replaced at once from the collection -/
def substituteAll (lib : GoLib) (pair : GoMap) (base : String) : String :=
  ⟨substituteFrom (replacementOf lib pair) 0 base.data⟩

/-- Every dollar sign of the text opens a match of the pattern -/
def DollarsOpenMatches (s : List Char) : Prop :=
  ∀ pre suf, s = pre ++ '$' :: suf → (matchHere ('$' :: suf)).isSome = true

/-- An entry under the lower case of its key -/
def lowerEntry (lib : GoLib) (e : String × Value) : String × Value := (lib.toLower e.1, e.2)

/-- No two keys of the map have the same lower case -/
def LowerDistinct (lib : GoLib) (m : GoMap) : Prop :=
  m.Pairwise (fun a b => lib.toLower a.1 ≠ lib.toLower b.1)

/-- A library whose decimal parser reads the text `10281028.4321` and nothing else -/
def decimalLib : GoLib :=
  { asciiLib with
    decimalFromString := fun s => if s = "10281028.4321" then some ⟨some 102810284321, -4⟩ else none }

/-- The decimal digits of `n`, most significant first, by recursion on `n`; `formatDigits`
computes them with fuel -/
def decDigits (n : Nat) : List Char :=
  if _h : n < 10 then [digitChar n] else decDigits (n / 10) ++ [digitChar (n % 10)]
termination_by n
decreasing_by omega

/-! ## Notions the proofs about interpolation are made with -/

/-- The text of the placeholder with word `w` -/
def matchText (w : List Char) : List Char := '$' :: '\x7b' :: (w ++ ['\x7d'])

/-- A piece of a template: a character outside the matches, or a placeholder with its word -/
inductive Tok
  | lit (c : Char)
  | ph (w : List Char)
deriving DecidableEq, Repr

/-- The pieces of a text, found by the scan of `findAllFrom` -/
def tokenizeFrom : Nat → List Char → List Tok
  | _, [] => []
  | skip + 1, _ :: t => tokenizeFrom skip t
  | 0, c :: t =>
    match matchHere (c :: t) with
    | some w => Tok.ph w :: tokenizeFrom (w.length + 2) t
    | none => Tok.lit c :: tokenizeFrom 0 t

/-- The text a piece stands for once the placeholders with a word in `done` have given way to
`σ` of their word -/
def Tok.expand (σ : List Char → List Char) (done : List (List Char)) : Tok → List Char
  | Tok.lit c => [c]
  | Tok.ph w => if w ∈ done then σ w else matchText w

/-- The text a list of pieces stands for -/
def expandAll (σ : List Char → List Char) (done : List (List Char)) : List Tok → List Char
  | [] => []
  | tk :: ts => tk.expand σ done ++ expandAll σ done ts

/-- The words of the placeholders among the pieces, in order -/
def phWords : List Tok → List (List Char)
  | [] => []
  | Tok.lit _ :: ts => phWords ts
  | Tok.ph w :: ts => w :: phWords ts

/-- Pieces as the proofs need them: no character outside the placeholders is a dollar sign and
the word of every placeholder is made of word characters -/
def TokOk : Tok → Prop
  | Tok.lit c => c ≠ '$'
  | Tok.ph w => ∀ c ∈ w, wordChar c = true

/-- A decision procedure for `DollarsOpenMatches` -/
def dollarsOpen : List Char → Bool
  | [] => true
  | c :: t => (decide (c ≠ '$') || (matchHere (c :: t)).isSome) && dollarsOpen t

/-- The words of the non-overlapping matches of the pattern in the template, in order of
occurrence -/
def matchWords (base : String) : List (List Char) := phWords (tokenizeFrom 0 base.data)

/-- The value the specification records for a placeholder: the stored value of the entry whose
name equals the word case-insensitively, the string `"0"` when there is none -/
def valueOf (lib : GoLib) (pair : GoMap) (w : List Char) : Value :=
  match pair.find? (fun e => lib.EqualFold ⟨w⟩ e.1) with
  | some e => e.2
  | none => Value.str "0"

/-! ## The key-order sorter -/

/-- The inner loop of `SortByKey`: the first entry met whose key equals `o` under `EqualFold`
is assigned in `ret` and ends the loop -/
def sortFind (lib : GoLib) (o : String) : GoMap → GoMap → GoMap
  | [], ret => ret
  | (k, v) :: t, ret => if lib.EqualFold o k then mapSet ret k v else sortFind lib o t ret

/-- The outer loop of `SortByKey` over the elements of `keyOrder` left -/
def sortLoop (lib : GoLib) (pair : GoMap) : List String → GoMap → GoMap
  | [], ret => ret
  | o :: os, ret => sortLoop lib pair os (sortFind lib o pair ret)

/-- The function `SortByKey`; `keyOrder` is `none` for a nil pointer.  The second component is
the collection `values` points to after the call -/
def SortByKey (lib : GoLib) (values : NameValues) (keyOrder : Option (List String)) :
    NameValues × NameValues :=
  match keyOrder with
  | none => (values, values)
  | some ko =>
    if ko.length = 0 then (values, values)
    else (⟨sortLoop lib values.Pair ko [], false⟩, values)

/-- What `ret` holds was taken from `pair` -/
def TakenFrom (pair ret : GoMap) : Prop :=
  ∀ k v, mapLookup ret k = (v, true) → mapLookup pair k = (v, true)

/-! ## Pointer outputs

A pointer result is `none` for nil and `some x` for a reference to `x`. -/

/-- The method `PtrString` -/
def PtrString (lib : GoLib) (nvp : NameValues) (name : String) :
    (Option String × Bool) × NameValues :=
  let r := String_ lib nvp name
  if r.1.2 = false then ((none, r.1.2), r.2) else ((some r.1.1, r.1.2), r.2)

/-- The method `PtrInt` -/
def PtrInt (lib : GoLib) (nvp : NameValues) (name : String) : (Option Int × Bool) × NameValues :=
  let r := Int_ lib nvp name
  if r.1.2 = false then ((none, r.1.2), r.2) else ((some r.1.1, r.1.2), r.2)

/-- The method `PtrInt64` -/
def PtrInt64 (lib : GoLib) (nvp : NameValues) (name : String) :
    (Option Int × Bool) × NameValues :=
  let r := Int64 lib nvp name
  if r.1.2 = false then ((none, r.1.2), r.2) else ((some r.1.1, r.1.2), r.2)

/-- The method `PtrPlain` -/
def PtrPlain (lib : GoLib) (nvp : NameValues) (name : String) :
    (Option Value × Bool) × NameValues :=
  let r := Plain lib nvp name
  if r.1.2 = false then ((none, r.1.2), r.2) else ((some r.1.1, r.1.2), r.2)

/-- The method `PtrBool` -/
def PtrBool (lib : GoLib) (nvp : NameValues) (name : String) :
    (Option Bool × Bool) × NameValues :=
  let r := Bool_ lib nvp name
  if r.1.2 = false then ((none, r.1.2), r.2) else ((some r.1.1, r.1.2), r.2)

/-- The method `PtrFloat64` -/
def PtrFloat64 (lib : GoLib) (nvp : NameValues) (name : String) :
    (Option float64 × Bool) × NameValues :=
  let r := Float64 lib nvp name
  if r.1.2 = false then ((none, r.1.2), r.2) else ((some r.1.1, r.1.2), r.2)

/-- The method `PtrDecimal` -/
def PtrDecimal (lib : GoLib) (nvp : NameValues) (name : String) :
    (Option ssd.Decimal × Bool) × NameValues :=
  let r := Decimal lib nvp name
  if r.1.2 = false then ((none, r.1.2), r.2) else ((some r.1.1, r.1.2), r.2)

/-- A pointer result mirrors a value result: the flags agree, the reference is nil exactly when
the flag is false, and otherwise it refers to the value -/
def PtrMirrors {α : Type} (p : Option α × Bool) (r : α × Bool) : Prop :=
  p.2 = r.2 ∧ (p.1 = none ↔ p.2 = false) ∧ (r.2 = true → p.1 = some r.1)

/-! ## The generic accessor -/

/-- The types that may stand for the type parameter `T` of `NameValueGet`: the predeclared
types of `constraints.Ordered` and `bool` (`uintptr` and the named types with such an underlying
type are left out) -/
inductive GoType
  | string
  | sint (k : Signed)
  | uint (k : Unsigned)
  | float32
  | float64
  | bool
deriving DecidableEq, Repr

/-- The zero value `*new(T)`, which is also what `getZero[T]()` returns, as a value of type
`any` -/
def zeroOf : GoType → Value
  | GoType.string => Value.str ""
  | GoType.sint k => Value.sint k 0
  | GoType.uint k => Value.uint k 0
  | GoType.float32 => Value.float32 ⟨0⟩
  | GoType.float64 => Value.float64 ⟨0⟩
  | GoType.bool => Value.bool false

/-- The dynamic type of a value, when it is one of the types `T` may be -/
def dynType : Value → Option GoType
  | Value.str _ => some GoType.string
  | Value.sint k _ => some (GoType.sint k)
  | Value.uint k _ => some (GoType.uint k)
  | Value.float32 _ => some GoType.float32
  | Value.float64 _ => some GoType.float64
  | Value.bool _ => some GoType.bool
  | _ => none

/-- The type assertion `t.(T)` without comma-ok: `none` is the run-time panic of an assertion
that fails -/
def assertType (T : GoType) (t : Value) : Option Value :=
  if dynType t = some T then some t else none

/-- `strconv.ParseBool`: the value returned and the error, if any -/
def ParseBool (str : String) : Bool × Option NumError :=
  if str ∈ ["1", "t", "T", "TRUE", "true", "True"] then (true, none)
  else if str ∈ ["0", "f", "F", "FALSE", "false", "False"] then (false, none)
  else (false, some NumError.errSyntax)

/-- The function `NameValueGet[T]`.  The first component is `none` when the call panics.  The
collection is passed by value: `prepare` runs on the copy, so the caller sees the keys of the
shared map in lower case while its own `prepared` stays as it was -/
def NameValueGet (lib : GoLib) (T : GoType) (nvs : NameValues) (name : String) :
    Option Value × NameValues :=
  let after : NameValues := ⟨(ensurePrepared lib nvs).Pair, nvs.prepared⟩
  match mapIndex (ensurePrepared lib nvs).Pair (lib.toLower name) with
  | Value.str t =>
    match T with
    | GoType.sint Signed.int => (some (Value.sint Signed.int (ParseInt t.data 32).1), after)
    | GoType.sint Signed.int64 => (some (Value.sint Signed.int64 (ParseInt t.data 64).1), after)
    | GoType.bool => (some (Value.bool (ParseBool t).1), after)
    | GoType.float32 => (none, after)
    | GoType.float64 => (some (Value.float64 (lib.parseFloat t).1), after)
    | _ => (assertType T (Value.str t), after)
  | Value.nil => (some (zeroOf T), after)
  | t => (assertType T t, after)

/-- The function `NameValueGetPtr[T]`: `none` when the call panics, otherwise the pointer
returned, which is `&value` -/
def NameValueGetPtr (lib : GoLib) (T : GoType) (nvs : NameValues) (name : String) :
    Option (Option Value) × NameValues :=
  ((NameValueGet lib T nvs name).1.map some, (NameValueGet lib T nvs name).2)

/-! ## Lookups as data -/

/-- A call of one of the lookups that prepare the collection, with the name it is given -/
inductive Call
  | exist (name : String)
  | text (name : String)
  | int (name : String)
  | int64 (name : String)
  | float64 (name : String)
  | bool (name : String)
  | plain (name : String)
  | decimal (name : String)
deriving DecidableEq, Repr

/-- What a lookup returns -/
inductive Outcome
  | flag (b : Bool)
  | text (r : String × Bool)
  | integer (r : Int × Bool)
  | float (r : float64 × Bool)
  | boolean (r : Bool × Bool)
  | plain (r : Value × Bool)
  | decimal (r : ssd.Decimal × Bool)
deriving DecidableEq, Repr

/-- The call performed on a collection: what `Exists`, `String`, `Int`, `Int64`, `Float64`,
`Bool`, `Plain` or `Decimal` returns, and the collection after the call -/
def Call.run (lib : GoLib) (nvp : NameValues) : Call → Outcome × NameValues
  | Call.exist name => (Outcome.flag (Exists lib nvp name).1, (Exists lib nvp name).2)
  | Call.text name => (Outcome.text (String_ lib nvp name).1, (String_ lib nvp name).2)
  | Call.int name => (Outcome.integer (Int_ lib nvp name).1, (Int_ lib nvp name).2)
  | Call.int64 name => (Outcome.integer (Int64 lib nvp name).1, (Int64 lib nvp name).2)
  | Call.float64 name => (Outcome.float (Float64 lib nvp name).1, (Float64 lib nvp name).2)
  | Call.bool name => (Outcome.boolean (Bool_ lib nvp name).1, (Bool_ lib nvp name).2)
  | Call.plain name => (Outcome.plain (Plain lib nvp name).1, (Plain lib nvp name).2)
  | Call.decimal name => (Outcome.decimal (Decimal lib nvp name).1, (Decimal lib nvp name).2)

/-- The statement `nvp.Pair[k] = v` of the owner of the collection -/
def addEntry (nvp : NameValues) (k : String) (v : Value) : NameValues :=
  ⟨mapSet nvp.Pair k v, nvp.prepared⟩

/-- Every key of the map is its own lower case -/
def KeysLower (lib : GoLib) (m : GoMap) : Prop := ∀ e ∈ m, lib.toLower e.1 = e.1

/-! # Theorems -/

/-! ## Facts about maps -/

theorem mapSet_fresh (m : GoMap) (k : String) (v : Value) (h : ∀ e ∈ m, e.1 ≠ k) :
    mapSet m k v = m ++ [(k, v)] := by
  induction m with
  | nil => rfl
  | cons e t ih =>
    obtain ⟨k', v'⟩ := e
    have hk : k' ≠ k := h (k', v') (List.mem_cons_self _ _)
    simp only [mapSet, hk, if_false, List.cons_append]
    rw [ih (fun e he => h e (List.mem_cons_of_mem _ he))]

theorem mapLookup_mem (m : GoMap) (k : String) (v : Value)
    (hm : m.Pairwise (fun a b => a.1 ≠ b.1)) (h : (k, v) ∈ m) : mapLookup m k = (v, true) := by
  induction m with
  | nil => simp at h
  | cons e t ih =>
    obtain ⟨k', v'⟩ := e
    rw [List.pairwise_cons] at hm
    rcases List.mem_cons.1 h with heq | ht
    · injection heq with h1 h2
      subst h1; subst h2
      simp [mapLookup]
    · have hk : k' ≠ k := hm.1 (k, v) ht
      simp only [mapLookup, hk, if_false]
      exact ih hm.2 ht

theorem mapLookup_absent (m : GoMap) (k : String) (h : ∀ e ∈ m, e.1 ≠ k) :
    mapLookup m k = (Value.nil, false) := by
  induction m with
  | nil => rfl
  | cons e t ih =>
    obtain ⟨k', v'⟩ := e
    have hk : k' ≠ k := h (k', v') (List.mem_cons_self _ _)
    simp only [mapLookup, hk, if_false]
    exact ih (fun e he => h e (List.mem_cons_of_mem _ he))

theorem mapDelete_head (k : String) (v : Value) (t : GoMap) (h : ∀ e ∈ t, e.1 ≠ k) :
    mapDelete ((k, v) :: t) k = t := by
  unfold mapDelete
  rw [List.filter_cons]
  simp only [ne_eq, not_true_eq_false, decide_False, Bool.false_eq_true, if_false]
  exact List.filter_eq_self.2 (fun e he => by simpa using h e he)

/-! ## Facts about `prepare` -/

theorem prepareMove_distinct (lib : GoLib) (l np : GoMap) (hl : LowerDistinct lib l)
    (hnp : ∀ e ∈ np, ∀ e' ∈ l, e.1 ≠ lib.toLower e'.1) :
    prepareMove lib (l.map Prod.fst) (np, l) = (np ++ l.map (lowerEntry lib), []) := by
  induction l generalizing np with
  | nil => simp [prepareMove]
  | cons e t ih =>
    obtain ⟨n, v⟩ := e
    unfold LowerDistinct at hl
    rw [List.pairwise_cons] at hl
    have hfresh : ∀ e ∈ t, e.1 ≠ n := fun e he heq => hl.1 e he (by rw [heq])
    have hidx : mapIndex ((n, v) :: t) n = v := by simp [mapIndex, mapLookup]
    simp only [List.map_cons, prepareMove, hidx, mapDelete_head n v t hfresh]
    rw [mapSet_fresh np (lib.toLower n) v
      (fun e he => hnp e he (n, v) (List.mem_cons_self _ _))]
    rw [ih (np ++ [(lib.toLower n, v)]) hl.2]
    · simp [lowerEntry]
    · intro e he e' he'
      rcases List.mem_append.1 he with h1 | h1
      · exact hnp e h1 e' (List.mem_cons_of_mem _ he')
      · simp only [List.mem_singleton] at h1
        subst h1
        exact hl.1 e' he'

theorem prepareCopy_distinct (np done rest : GoMap) (hnp : np.Pairwise (fun a b => a.1 ≠ b.1))
    (h : np = done ++ rest) : prepareCopy np (rest.map Prod.fst) done = np := by
  induction rest generalizing done with
  | nil => simp [prepareCopy, h]
  | cons e t ih =>
    obtain ⟨n, v⟩ := e
    have hmem : (n, v) ∈ np := by rw [h]; simp
    have hidx : mapIndex np n = v := by
      unfold mapIndex
      rw [mapLookup_mem np n v hnp hmem]
    have hfresh : ∀ e ∈ done, e.1 ≠ n := by
      intro e he
      rw [h, List.pairwise_append] at hnp
      exact hnp.2.2 e he (n, v) (List.mem_cons_self _ _)
    simp only [List.map_cons, prepareCopy, hidx]
    rw [mapSet_fresh done n v hfresh]
    exact ih (done ++ [(n, v)]) (by simp [h])

theorem prepare_distinct (lib : GoLib) (nvp : NameValues) (h : LowerDistinct lib nvp.Pair) :
    prepare lib nvp = ⟨nvp.Pair.map (lowerEntry lib), true⟩ := by
  unfold prepare
  rw [prepareMove_distinct lib nvp.Pair [] h (by simp)]
  simp only [List.nil_append]
  rw [prepareCopy_distinct _ [] _ _ (by simp)]
  unfold LowerDistinct at h
  rw [List.pairwise_map]
  exact h

/-! ## Claims -/

/-- C1. Case-insensitive lookup: on a collection that no lookup has yet prepared and whose keys
are pairwise distinct after lowercasing, every entry `(k, v)` is found under every name `q`
whose lower case is that of `k`: `Exists q` is true and `Plain q` is `(v, true)`. -/
theorem lookup_any_casing (lib : GoLib) (nvp : NameValues) (k q : String) (v : Value)
    (hprep : nvp.prepared = false) (hkeys : LowerDistinct lib nvp.Pair)
    (hmem : (k, v) ∈ nvp.Pair) (hq : lib.toLower q = lib.toLower k) :
    (Exists lib nvp q).1 = true ∧ (Plain lib nvp q).1 = (v, true) := by
  have hfind : mapLookup (nvp.Pair.map (lowerEntry lib)) (lib.toLower q) = (v, true) := by
    apply mapLookup_mem
    · unfold LowerDistinct at hkeys
      rw [List.pairwise_map]
      exact hkeys
    · rw [hq]
      exact List.mem_map.2 ⟨(k, v), hmem, rfl⟩
  simp [Exists, Plain, ensurePrepared, hprep, prepare_distinct lib nvp hkeys, hfind]

/-- C1 at the collection `{"Key1": "a", "kEy2": 3}` queried with `KEY2` -/
theorem lookup_any_casing_witness :
    (Exists asciiLib ⟨[("Key1", Value.str "a"), ("kEy2", Value.sint Signed.int 3)], false⟩ "KEY2").1
        = true ∧
      (Plain asciiLib ⟨[("Key1", Value.str "a"), ("kEy2", Value.sint Signed.int 3)], false⟩
        "KEY2").1 = (Value.sint Signed.int 3, true) :=
  lookup_any_casing asciiLib ⟨[("Key1", Value.str "a"), ("kEy2", Value.sint Signed.int 3)], false⟩
    "kEy2" "KEY2" (Value.sint Signed.int 3) rfl (by unfold LowerDistinct; decide) (by decide)
    (by decide)

theorem mapLookup_false (m : GoMap) (k : String) (h : (mapLookup m k).2 = false) :
    (mapLookup m k).1 = Value.nil := by
  induction m with
  | nil => rfl
  | cons e t ih =>
    obtain ⟨k', v'⟩ := e
    by_cases hk : k' = k
    · simp [mapLookup, hk] at h
    · simp only [mapLookup, hk, if_false] at h ⊢
      exact ih h

theorem String_flag (lib : GoLib) (nvp : NameValues) (name : String) :
    (String_ lib nvp name).1.2 = (mapLookup (ensurePrepared lib nvp).Pair (lib.toLower name)).2 := by
  unfold String_
  dsimp only
  split
  · rfl
  · split <;> rfl

theorem Int_flag (lib : GoLib) (nvp : NameValues) (name : String) :
    (Int_ lib nvp name).1.2 = (mapLookup (ensurePrepared lib nvp).Pair (lib.toLower name)).2 := by
  unfold Int_
  dsimp only
  split
  · rfl
  · split <;> rfl

theorem Int64_flag (lib : GoLib) (nvp : NameValues) (name : String) :
    (Int64 lib nvp name).1.2 = (mapLookup (ensurePrepared lib nvp).Pair (lib.toLower name)).2 := by
  unfold Int64
  dsimp only
  split
  · rfl
  · split <;> rfl

theorem Float64_flag (lib : GoLib) (nvp : NameValues) (name : String) :
    (Float64 lib nvp name).1.2
      = (mapLookup (ensurePrepared lib nvp).Pair (lib.toLower name)).2 := by
  unfold Float64
  dsimp only
  split
  · rfl
  · split <;> rfl

theorem Decimal_flag (lib : GoLib) (nvp : NameValues) (name : String) :
    (Decimal lib nvp name).1.2
      = (mapLookup (ensurePrepared lib nvp).Pair (lib.toLower name)).2 := by
  unfold Decimal
  dsimp only
  split
  · rfl
  · split <;> rfl

theorem Bool_flag (lib : GoLib) (nvp : NameValues) (name : String) :
    (Bool_ lib nvp name).1.2 = (mapLookup (ensurePrepared lib nvp).Pair (lib.toLower name)).2 := by
  unfold Bool_
  dsimp only
  split
  · rw [← String_flag]
  · rename_i h
    rw [← String_flag]
    simpa using h

theorem String_absent (lib : GoLib) (nvp : NameValues) (name : String)
    (h : (mapLookup (ensurePrepared lib nvp).Pair (lib.toLower name)).2 = false) :
    (String_ lib nvp name).1 = ("", false) := by
  unfold String_
  simp [h]

/-- C2. Existence flag and absence: the second result of `String`, `Int`, `Int64`, `Float64`,
`Bool`, `Plain` and `Decimal` is what `Exists` returns for the same name on the same collection,
and when it is false the first result is the zero value of the type: `""`, `0`, `0`, `0.0`,
`false`, `nil` and `Decimal{}`. -/
theorem flag_is_existence (lib : GoLib) (nvp : NameValues) (name : String) :
    ((String_ lib nvp name).1.2 = (Exists lib nvp name).1
      ∧ (Int_ lib nvp name).1.2 = (Exists lib nvp name).1
      ∧ (Int64 lib nvp name).1.2 = (Exists lib nvp name).1
      ∧ (Float64 lib nvp name).1.2 = (Exists lib nvp name).1
      ∧ (Bool_ lib nvp name).1.2 = (Exists lib nvp name).1
      ∧ (Plain lib nvp name).1.2 = (Exists lib nvp name).1
      ∧ (Decimal lib nvp name).1.2 = (Exists lib nvp name).1)
    ∧ ((Exists lib nvp name).1 = false →
      (String_ lib nvp name).1.1 = ""
      ∧ (Int_ lib nvp name).1.1 = 0
      ∧ (Int64 lib nvp name).1.1 = 0
      ∧ (Float64 lib nvp name).1.1 = ⟨0⟩
      ∧ (Bool_ lib nvp name).1.1 = false
      ∧ (Plain lib nvp name).1.1 = Value.nil
      ∧ (Decimal lib nvp name).1.1 = ssd.Decimal.zero) := by
  refine ⟨⟨String_flag lib nvp name, Int_flag lib nvp name, Int64_flag lib nvp name,
    Float64_flag lib nvp name, Bool_flag lib nvp name, rfl, Decimal_flag lib nvp name⟩, ?_⟩
  intro h
  have hf : (mapLookup (ensurePrepared lib nvp).Pair (lib.toLower name)).2 = false := h
  have hs := String_absent lib nvp name hf
  refine ⟨by rw [hs], ?_, ?_, ?_, ?_, ?_, ?_⟩
  · simp [Int_, hf]
  · simp [Int64, hf]
  · simp [Float64, hf]
  · simp [Bool_, hs]
  · exact mapLookup_false _ _ hf
  · simp [Decimal, hf]

/-- C2 at `{"key1a": "1028", "key1b": 1028}` queried with the unknown name `unknown` -/
theorem flag_is_existence_witness :
    (Exists asciiLib ⟨[("key1a", Value.str "1028"), ("key1b", Value.sint Signed.int 1028)], false⟩
        "unknown").1 = false
      ∧ (Int_ asciiLib ⟨[("key1a", Value.str "1028"), ("key1b", Value.sint Signed.int 1028)], false⟩
        "unknown").1 = (0, false) := by
  have h := flag_is_existence asciiLib
    ⟨[("key1a", Value.str "1028"), ("key1b", Value.sint Signed.int 1028)], false⟩ "unknown"
  have hex : (Exists asciiLib
      ⟨[("key1a", Value.str "1028"), ("key1b", Value.sint Signed.int 1028)], false⟩
      "unknown").1 = false := by decide
  exact ⟨hex, Prod.ext (h.2 hex).2.1 (h.1.2.1.trans hex)⟩

theorem Plain_eq (lib : GoLib) (nvp : NameValues) (name : String) :
    (Plain lib nvp name).1 = mapLookup (ensurePrepared lib nvp).Pair (lib.toLower name) := rfl

theorem String_stored (lib : GoLib) (nvp : NameValues) (name s : String)
    (h : (Plain lib nvp name).1 = (Value.str s, true)) : (String_ lib nvp name).1 = (s, true) := by
  rw [Plain_eq] at h
  simp [String_, h]

/-- C3. Direct-match path: when the value stored under the name is natively a string `s`,
`String` returns `(s, true)`; when it is natively an `int` `n`, `Int` returns `(n, true)`; when
it is natively an `int64` `m`, `Int64` returns `(m, true)`. -/
theorem direct_match (lib : GoLib) (nvp : NameValues) (name : String) :
    (∀ s : String, (Plain lib nvp name).1 = (Value.str s, true) →
        (String_ lib nvp name).1 = (s, true))
    ∧ (∀ n : Int, (Plain lib nvp name).1 = (Value.sint Signed.int n, true) →
        (Int_ lib nvp name).1 = (n, true))
    ∧ (∀ m : Int, (Plain lib nvp name).1 = (Value.sint Signed.int64 m, true) →
        (Int64 lib nvp name).1 = (m, true)) := by
  refine ⟨?_, ?_, ?_⟩
  · exact fun s h => String_stored lib nvp name s h
  · intro n h
    rw [Plain_eq] at h
    simp [Int_, h]
  · intro m h
    rw [Plain_eq] at h
    simp [Int64, h]

/-- C3 at `{"key1": "This is a string", "key1b": 1028, "key1c": 102810281028}` -/
theorem direct_match_witness :
    (String_ asciiLib ⟨[("key1", Value.str "This is a string")], false⟩ "key1").1
        = ("This is a string", true)
      ∧ (Int_ asciiLib ⟨[("key1b", Value.sint Signed.int 1028)], false⟩ "key1b").1 = (1028, true)
      ∧ (Int64 asciiLib ⟨[("key1c", Value.sint Signed.int64 102810281028)], false⟩ "key1c").1
        = (102810281028, true) :=
  ⟨(direct_match asciiLib ⟨[("key1", Value.str "This is a string")], false⟩ "key1").1
      "This is a string" (by decide),
    (direct_match asciiLib ⟨[("key1b", Value.sint Signed.int 1028)], false⟩ "key1b").2.1
      1028 (by decide),
    (direct_match asciiLib ⟨[("key1c", Value.sint Signed.int64 102810281028)], false⟩ "key1c").2.2
      102810281028 (by decide)⟩

/-- C6. Boolean literal set: when the value stored under the name is a string `s`, `Bool`
returns `(b, true)` where `b` is true exactly when `s` is one of `true`, `yes`, `1`, `-1`, `on`,
compared as stored, and false for every other string. -/
theorem bool_literal_set (lib : GoLib) (nvp : NameValues) (name s : String)
    (h : (Plain lib nvp name).1 = (Value.str s, true)) :
    (Bool_ lib nvp name).1.2 = true
    ∧ ((Bool_ lib nvp name).1.1 = true ↔
        (s = "true" ∨ s = "yes" ∨ s = "1" ∨ s = "-1" ∨ s = "on")) := by
  have hs : (String_ lib nvp name).1 = (s, true) := String_stored lib nvp name s h
  simp [Bool_, hs, or_assoc]

/-- C6 at `{"key1a": "on", "key2a": "On"}`: the literal is compared as stored -/
theorem bool_literal_set_witness :
    (Bool_ asciiLib ⟨[("key1a", Value.str "on"), ("key2a", Value.str "On")], false⟩ "key1a").1
        = (true, true)
      ∧ (Bool_ asciiLib ⟨[("key1a", Value.str "on"), ("key2a", Value.str "On")], false⟩ "key2a").1
        = (false, true) := by
  have h1 := bool_literal_set asciiLib
    ⟨[("key1a", Value.str "on"), ("key2a", Value.str "On")], false⟩ "key1a" "on" (by decide)
  have h2 := bool_literal_set asciiLib
    ⟨[("key1a", Value.str "on"), ("key2a", Value.str "On")], false⟩ "key2a" "On" (by decide)
  refine ⟨Prod.ext (h1.2.2 (by decide)) h1.1, Prod.ext ?_ h2.1⟩
  have hn : ¬ ((Bool_ asciiLib ⟨[("key1a", Value.str "on"), ("key2a", Value.str "On")], false⟩
      "key2a").1.1 = true) := fun hb => absurd (h2.2.1 hb) (by decide)
  simpa using hn

/-- C7. A natively stored `true` read through `Bool`: the method goes through `String`, whose
failed assertion leaves the empty text, and answers `(false, true)`. -/
theorem bool_native_true_reads_false :
    (Bool_ asciiLib ⟨[("key1a", Value.str "true"), ("key1b", Value.bool true)], false⟩ "key1b").1
        = (false, true)
      ∧ (Plain asciiLib ⟨[("key1a", Value.str "true"), ("key1b", Value.bool true)], false⟩
        "key1b").1 = (Value.bool true, true) := by
  decide

theorem startsWith_single (c d : Char) (t : List Char) :
    startsWith (c :: t) [d] = decide (c = d) := by
  cases t <;> simp [startsWith]

theorem splitFrom_comma_cons (c : Char) (t : List Char) :
    splitFrom [','] 0 (c :: t)
      = if c = ',' then [] :: splitFrom [','] 0 t
        else match splitFrom [','] 0 t with
          | seg :: segs => (c :: seg) :: segs
          | [] => [[c]] := by
  rw [splitFrom, startsWith_single]
  by_cases h : c = ',' <;> simp [h]

theorem splitFrom_comma_ne_nil (s : List Char) : splitFrom [','] 0 s ≠ [] := by
  cases s with
  | nil => simp [splitFrom]
  | cons c t =>
    rw [splitFrom_comma_cons]
    split
    · simp
    · split <;> simp

theorem intercalate_comma_nil_cons (r : List (List Char)) (h : r ≠ []) :
    List.intercalate [','] ([] :: r) = ',' :: List.intercalate [','] r := by
  cases r with
  | nil => exact absurd rfl h
  | cons x xs => simp [List.intercalate, List.intersperse]

theorem intercalate_comma_push (c : Char) (seg : List Char) (segs : List (List Char)) :
    List.intercalate [','] ((c :: seg) :: segs) = c :: List.intercalate [','] (seg :: segs) := by
  cases segs <;> simp [List.intercalate, List.intersperse]

theorem splitFrom_comma_join (s : List Char) :
    List.intercalate [','] (splitFrom [','] 0 s) = s := by
  induction s with
  | nil => simp [splitFrom, List.intercalate, List.intersperse]
  | cons c t ih =>
    rw [splitFrom_comma_cons]
    by_cases h : c = ','
    · simp only [h, if_true]
      rw [intercalate_comma_nil_cons _ (splitFrom_comma_ne_nil t), ih]
    · simp only [h, if_false]
      cases hs : splitFrom [','] 0 t with
      | nil => exact absurd hs (splitFrom_comma_ne_nil t)
      | cons seg segs =>
        simp only []
        rw [intercalate_comma_push, ← hs, ih]

theorem splitFrom_comma_length (s : List Char) :
    (splitFrom [','] 0 s).length = s.count ',' + 1 := by
  induction s with
  | nil => simp [splitFrom]
  | cons c t ih =>
    rw [splitFrom_comma_cons]
    by_cases h : c = ','
    · simp [h, ih]
    · simp only [h, if_false]
      have hc : (c == ',') = false := by simpa using h
      cases hs : splitFrom [','] 0 t with
      | nil => exact absurd hs (splitFrom_comma_ne_nil t)
      | cons seg segs =>
        rw [hs] at ih
        simp only [List.length_cons] at ih ⊢
        rw [List.count_cons, hc]
        simpa using ih

theorem splitFrom_comma_free (s : List Char) : ∀ seg ∈ splitFrom [','] 0 s, ',' ∉ seg := by
  induction s with
  | nil => simp [splitFrom]
  | cons c t ih =>
    rw [splitFrom_comma_cons]
    by_cases h : c = ','
    · simp only [h, if_true]
      intro seg hseg
      rcases List.mem_cons.1 hseg with h1 | h1
      · simp [h1]
      · exact ih seg h1
    · simp only [h, if_false]
      cases hs : splitFrom [','] 0 t with
      | nil => exact absurd hs (splitFrom_comma_ne_nil t)
      | cons seg0 segs =>
        rw [hs] at ih
        intro seg hseg
        simp only [] at hseg
        rcases List.mem_cons.1 hseg with h1 | h1
        · subst h1
          have h0 := ih seg0 (List.mem_cons_self _ _)
          simp only [List.mem_cons, not_or]
          exact ⟨fun hc => h hc.symm, h0⟩
        · exact ih seg (List.mem_cons_of_mem _ h1)

theorem containsFrom_comma (s : List Char) : containsFrom [','] s = decide (',' ∈ s) := by
  induction s with
  | nil => simp [containsFrom, startsWith]
  | cons c t ih =>
    rw [containsFrom, startsWith_single, ih]
    by_cases h : c = ','
    · simp [h]
    · have h2 : ¬ (',' = c) := fun hc => h hc.symm
      simp [h, h2]

theorem splitFrom_comma_none (s : List Char) (h : ',' ∉ s) : splitFrom [','] 0 s = [s] := by
  induction s with
  | nil => simp [splitFrom]
  | cons c t ih =>
    simp only [List.mem_cons, not_or] at h
    rw [splitFrom_comma_cons, ih h.2]
    have hc : ¬ (c = ',') := fun hc => h.1 hc.symm
    simp [hc]

theorem Split_comma (v : String) : Split v "," = (splitFrom [','] 0 v.data).map (fun seg => ⟨seg⟩) := by
  unfold Split
  simp

theorem Strings_stored (lib : GoLib) (nvp : NameValues) (name v : String)
    (h : (Plain lib nvp name).1 = (Value.str v, true)) : (Strings lib nvp name).1 = Split v "," := by
  have hs := String_stored lib nvp name v h
  unfold Strings
  simp only [hs, Bool.true_eq_false, if_false]
  by_cases hc : Contains v "," = true
  · simp [hc]
  · simp only [hc, Bool.false_eq_true, if_false]
    have hmem : ',' ∉ v.data := by
      intro hm
      apply hc
      unfold Contains
      rw [show (",":String).data = [','] from rfl, containsFrom_comma]
      simpa using hm
    rw [Split_comma, splitFrom_comma_none v.data hmem]
    rfl

/-- C8. String-array splitting: `Strings` returns the empty list when the name is absent; when
the value stored is a string `v` it returns the segments of `v` between its commas, in order:
no element contains a comma, there is one element more than there are commas in `v`, joining
the elements with `","` gives `v` back, and the result is `[v]` when `v` has no comma. -/
theorem strings_split (lib : GoLib) (nvp : NameValues) (name : String) :
    ((Exists lib nvp name).1 = false → (Strings lib nvp name).1 = [])
    ∧ (∀ v : String, (Plain lib nvp name).1 = (Value.str v, true) →
        (∀ e ∈ (Strings lib nvp name).1, ',' ∉ e.data)
        ∧ ((Strings lib nvp name).1).length = v.data.count ',' + 1
        ∧ Join (Strings lib nvp name).1 "," = v
        ∧ (',' ∉ v.data → (Strings lib nvp name).1 = [v])) := by
  refine ⟨?_, ?_⟩
  · intro h
    have hs := String_absent lib nvp name h
    simp [Strings, hs]
  · intro v h
    rw [Strings_stored lib nvp name v h, Split_comma]
    refine ⟨?_, ?_, ?_, ?_⟩
    · intro e he
      obtain ⟨seg, hseg, rfl⟩ := List.mem_map.1 he
      exact splitFrom_comma_free v.data seg hseg
    · rw [List.length_map, splitFrom_comma_length]
    · unfold Join
      rw [List.map_map]
      have : ((fun e : String => e.data) ∘ fun seg : List Char => (⟨seg⟩ : String)) = id := rfl
      rw [this, List.map_id, show (",":String).data = [','] from rfl, splitFrom_comma_join]
    · intro hn
      rw [splitFrom_comma_none v.data hn]
      rfl

/-- C8 at `{"key1": "a,b,c"}`: an unknown name gives no element, `key1` gives `a`, `b`, `c` -/
theorem strings_split_witness :
    (Strings asciiLib ⟨[("key1", Value.str "a,b,c")], false⟩ "unknown").1 = []
      ∧ ((Strings asciiLib ⟨[("key1", Value.str "a,b,c")], false⟩ "key1").1).length = 3
      ∧ Join (Strings asciiLib ⟨[("key1", Value.str "a,b,c")], false⟩ "key1").1 "," = "a,b,c"
      ∧ (Strings asciiLib ⟨[("key2", Value.str "abc")], false⟩ "key2").1 = ["abc"] :=
  ⟨(strings_split asciiLib ⟨[("key1", Value.str "a,b,c")], false⟩ "unknown").1 (by decide),
    ((strings_split asciiLib ⟨[("key1", Value.str "a,b,c")], false⟩ "key1").2 "a,b,c"
      (by decide)).2.1,
    ((strings_split asciiLib ⟨[("key1", Value.str "a,b,c")], false⟩ "key1").2 "a,b,c"
      (by decide)).2.2.1,
    ((strings_split asciiLib ⟨[("key2", Value.str "abc")], false⟩ "key2").2 "abc"
      (by decide)).2.2.2 (by decide)⟩

theorem replaceFrom_single_empty (d : Char) (s : List Char) :
    replaceFrom [d] [] 0 s = s.filter (fun c => c ≠ d) := by
  induction s with
  | nil => simp [replaceFrom]
  | cons c t ih =>
    rw [replaceFrom, startsWith_single]
    by_cases h : c = d
    · simp [h, ih]
    · simp [h, ih]

theorem ReplaceAll_strip (s : String) :
    ReplaceAll (ReplaceAll s "," "") " " "" = stripSeparators s := by
  unfold ReplaceAll Replace stripSeparators
  have h1 : (",":String).data = [','] := rfl
  have h2 : (" ":String).data = [' '] := rfl
  have h3 : ("":String).data = [] := rfl
  simp only [h1, h2, h3, List.cons_ne_nil, if_false]
  rw [replaceFrom_single_empty, replaceFrom_single_empty, List.filter_filter]
  congr 1
  apply List.filter_congr
  intro c _
  simp [and_comm]

theorem Decimal_stored (lib : GoLib) (nvp : NameValues) (name s : String)
    (h : (Plain lib nvp name).1 = (Value.str s, true)) :
    (Decimal lib nvp name).1 = ((ssd.NewFromString lib (stripSeparators s)).1, true) := by
  rw [Plain_eq] at h
  simp [Decimal, h, ReplaceAll_strip]

/-- C9. Decimal textual normalization: when the value stored under the name is a string `s`,
`Decimal` returns `(d, true)` where `d` is what the decimal parser makes of `s` without its
commas and spaces, and `Decimal{}` when the parser rejects that text; so two stored strings that
are equal once commas and spaces are removed give the same result. -/
theorem decimal_strips_separators (lib : GoLib) (nvp : NameValues) (name s : String)
    (h : (Plain lib nvp name).1 = (Value.str s, true)) :
    (Decimal lib nvp name).1
        = (match lib.decimalFromString (stripSeparators s) with
            | some d => d
            | none => ssd.Decimal.zero, true)
    ∧ ∀ (nvp' : NameValues) (name' s' : String),
        (Plain lib nvp' name').1 = (Value.str s', true) →
        stripSeparators s' = stripSeparators s →
        (Decimal lib nvp' name').1 = (Decimal lib nvp name).1 := by
  refine ⟨?_, ?_⟩
  · rw [Decimal_stored lib nvp name s h]
    unfold ssd.NewFromString
    cases lib.decimalFromString (stripSeparators s) <;> rfl
  · intro nvp' name' s' h' hs
    rw [Decimal_stored lib nvp name s h, Decimal_stored lib nvp' name' s' h', hs]

/-- C9 at `{"key1a": "10,281,028.4321", "key1b": "10 281 028.4321"}` -/
theorem decimal_strips_separators_witness :
    (Decimal decimalLib ⟨[("key1a", Value.str "10,281,028.4321"),
        ("key1b", Value.str "10 281 028.4321")], false⟩ "key1a").1
      = (⟨some 102810284321, -4⟩, true)
    ∧ (Decimal decimalLib ⟨[("key1a", Value.str "10,281,028.4321"),
        ("key1b", Value.str "10 281 028.4321")], false⟩ "key1b").1
      = (Decimal decimalLib ⟨[("key1a", Value.str "10,281,028.4321"),
        ("key1b", Value.str "10 281 028.4321")], false⟩ "key1a").1 :=
  ⟨(decimal_strips_separators decimalLib ⟨[("key1a", Value.str "10,281,028.4321"),
        ("key1b", Value.str "10 281 028.4321")], false⟩ "key1a" "10,281,028.4321" (by decide)).1,
    (decimal_strips_separators decimalLib ⟨[("key1a", Value.str "10,281,028.4321"),
        ("key1b", Value.str "10 281 028.4321")], false⟩ "key1a" "10,281,028.4321" (by decide)).2
      ⟨[("key1a", Value.str "10,281,028.4321"), ("key1b", Value.str "10 281 028.4321")], false⟩
      "key1b" "10 281 028.4321" (by decide) (by decide)⟩

theorem formatDigits_eq (fuel n : Nat) (acc : List Char) (h : n < fuel) :
    formatDigits fuel n acc = decDigits n ++ acc := by
  induction fuel generalizing n acc with
  | zero => omega
  | succ f ih =>
    rw [formatDigits, decDigits]
    by_cases h10 : n < 10
    · simp [h10]
    · simp only [h10, if_false, dite_false]
      rw [ih (n / 10) _ (by omega)]
      simp

theorem digitVal_digitChar (d : Nat) (h : d < 10) : digitVal (digitChar d) = some d := by
  interval_cases d <;> rfl

theorem digitChar_toNat (d : Nat) (h : d < 10) : (digitChar d).toNat = 48 + d := by
  interval_cases d <;> rfl

theorem decDigits_ne_nil (n : Nat) : decDigits n ≠ [] := by
  rw [decDigits]
  split <;> simp

theorem decDigits_digits (n : Nat) : ∀ c ∈ decDigits n, 48 ≤ c.toNat ∧ c.toNat ≤ 57 := by
  induction n using Nat.strong_induction_on with
  | _ n ih =>
    rw [decDigits]
    by_cases h10 : n < 10
    · simp only [h10, dite_true, List.mem_singleton]
      intro c hc
      subst hc
      rw [digitChar_toNat n h10]
      omega
    · simp only [h10, dite_false, List.mem_append, List.mem_singleton]
      intro c hc
      rcases hc with hc | hc
      · exact ih (n / 10) (by omega) c hc
      · subst hc
        rw [digitChar_toNat _ (Nat.mod_lt n (by norm_num))]
        omega

theorem parseUintLoop_append (maxVal : Nat) (l : List Char) (c : Char) (m v : Nat)
    (h : parseUintLoop maxVal l m = (v, none)) :
    parseUintLoop maxVal (l ++ [c]) m = parseUintLoop maxVal [c] v := by
  induction l generalizing m with
  | nil =>
    simp only [parseUintLoop, Prod.mk.injEq, and_true] at h
    simp [h]
  | cons a t ih =>
    rw [List.cons_append]
    cases hd : digitVal a with
    | none => simp [parseUintLoop, hd] at h
    | some d =>
      simp only [parseUintLoop, hd] at h
      conv_lhs => simp only [parseUintLoop, hd]
      split_ifs at h with h1 h2
      · simp at h
      · simp at h
      · rw [if_neg h1, if_neg h2]
        exact ih _ h

theorem parseUintLoop_step (maxVal : Nat) (c : Char) (cs : List Char) (n d : Nat)
    (hd : digitVal c = some d) (hn : n < 1844674407370955162) (hle : n * 10 + d ≤ maxVal)
    (hmax : maxVal < 18446744073709551616) :
    parseUintLoop maxVal (c :: cs) n = parseUintLoop maxVal cs (n * 10 + d) := by
  rw [parseUintLoop, hd]
  dsimp only
  have hc : ¬ ((2 ^ 64 - 1) / 10 + 1 ≤ n) := by
    norm_num
    omega
  have e1 : n * 10 % 2 ^ 64 = n * 10 := Nat.mod_eq_of_lt (by norm_num; omega)
  have e2 : (n * 10 + d) % 2 ^ 64 = n * 10 + d := Nat.mod_eq_of_lt (by norm_num; omega)
  rw [if_neg hc, e1, e2, if_neg (by omega)]

theorem parseUintLoop_decDigits (maxVal n : Nat) (hmax : maxVal < 18446744073709551616)
    (hn : n ≤ maxVal) : parseUintLoop maxVal (decDigits n) 0 = (n, none) := by
  induction n using Nat.strong_induction_on with
  | _ n ih =>
    rw [decDigits]
    by_cases h10 : n < 10
    · simp only [h10, dite_true]
      rw [parseUintLoop_step maxVal _ _ 0 n (digitVal_digitChar n h10) (by omega) (by omega) hmax]
      simp [parseUintLoop]
    · simp only [h10, dite_false]
      rw [parseUintLoop_append maxVal _ _ 0 (n / 10) (ih (n / 10) (by omega) (by omega))]
      rw [parseUintLoop_step maxVal _ _ (n / 10) (n % 10)
        (digitVal_digitChar _ (Nat.mod_lt n (by norm_num))) (by omega) (by omega) hmax]
      have h3 : n / 10 * 10 + n % 10 = n := by omega
      simp [parseUintLoop, h3]

theorem ParseUint_decDigits (bits N : Nat) (hb : bits ≤ 64) (hN : N ≤ 2 ^ bits - 1) :
    ParseUint (decDigits N) bits = (N, none) := by
  have hpow : (2 : Nat) ^ bits ≤ 2 ^ 64 := Nat.pow_le_pow_right (by norm_num) hb
  have hpos : 0 < (2 : Nat) ^ bits := pow_pos (by norm_num) _
  norm_num at hpow
  unfold ParseUint
  rw [if_neg (decDigits_ne_nil N)]
  exact parseUintLoop_decDigits (2 ^ bits - 1) N (by omega) hN

theorem decDigits_head (N : Nat) : ∃ c t, decDigits N = c :: t ∧ c ≠ '+' ∧ c ≠ '-' := by
  cases hd : decDigits N with
  | nil => exact absurd hd (decDigits_ne_nil N)
  | cons c t =>
    have hdig := decDigits_digits N c (by rw [hd]; exact List.mem_cons_self _ _)
    refine ⟨c, t, rfl, ?_, ?_⟩
    · intro hc
      rw [hc] at hdig
      revert hdig
      decide
    · intro hc
      rw [hc] at hdig
      revert hdig
      decide

theorem ParseInt_negative (bits N : Nat) (hb1 : 1 ≤ bits) (hb2 : bits ≤ 64)
    (hN : N ≤ 2 ^ (bits - 1)) : ParseInt ('-' :: decDigits N) bits = (-(N : Int), none) := by
  have hhalf : (2 : Nat) ^ bits = 2 * 2 ^ (bits - 1) := by
    rw [← pow_succ']
    congr 1
    omega
  have hpos : 0 < (2 : Nat) ^ (bits - 1) := pow_pos (by norm_num) _
  have hu := ParseUint_decDigits bits N hb2 (by omega)
  have h1 : ¬ (2 ^ (bits - 1) < N) := by omega
  simp [ParseInt, hu, h1]

theorem ParseInt_positive (bits N : Nat) (hb1 : 1 ≤ bits) (hb2 : bits ≤ 64)
    (hN : N < 2 ^ (bits - 1)) : ParseInt (decDigits N) bits = ((N : Int), none) := by
  have hhalf : (2 : Nat) ^ bits = 2 * 2 ^ (bits - 1) := by
    rw [← pow_succ']
    congr 1
    omega
  have hu := ParseUint_decDigits bits N hb2 (by omega)
  obtain ⟨c, t, hd, hplus, hminus⟩ := decDigits_head N
  rw [hd] at hu ⊢
  have h1 : ¬ (2 ^ (bits - 1) ≤ N) := by omega
  simp [ParseInt, hplus, hminus, hu, h1]

theorem ParseInt_FormatInt (bits : Nat) (n : Int) (hb1 : 1 ≤ bits) (hb2 : bits ≤ 64)
    (hlo : -(2 : Int) ^ (bits - 1) ≤ n) (hhi : n < (2 : Int) ^ (bits - 1)) :
    ParseInt (FormatInt n).data bits = (n, none) := by
  have hcast : ((2 ^ (bits - 1) : Nat) : Int) = (2 : Int) ^ (bits - 1) := by push_cast; rfl
  rw [← hcast] at hlo hhi
  by_cases hneg : n < 0
  · have hfmt : (FormatInt n).data = '-' :: decDigits n.natAbs := by
      simp [FormatInt, hneg, formatDigits_eq]
    rw [hfmt, ParseInt_negative bits n.natAbs hb1 hb2 (by omega)]
    congr 1
    omega
  · have hfmt : (FormatInt n).data = decDigits n.natAbs := by
      simp [FormatInt, hneg, FormatUint, formatDigits_eq]
    rw [hfmt, ParseInt_positive bits n.natAbs hb1 hb2 (by omega)]
    congr 1
    omega
theorem Int_stored (lib : GoLib) (nvp : NameValues) (name s : String)
    (h : (Plain lib nvp name).1 = (Value.str s, true)) :
    (Int_ lib nvp name).1 = ((Atoi lib s).1, true) := by
  rw [Plain_eq] at h
  simp [Int_, h]

theorem Int64_stored (lib : GoLib) (nvp : NameValues) (name s : String)
    (h : (Plain lib nvp name).1 = (Value.str s, true)) :
    (Int64 lib nvp name).1 = ((ParseInt s.data 64).1, true) := by
  rw [Plain_eq] at h
  simp [Int64, h]

theorem intSize_bounds (lib : GoLib) : 1 ≤ lib.intSize ∧ lib.intSize ≤ 64 := by
  unfold GoLib.intSize
  split <;> omega

/-- C4. Numeric round trip through text: for an integer `n` that the target type can hold, a
collection that stores the base-10 numeral of `n` as a string under a name makes `Int`
(for `int`) and `Int64` (for `int64`) return `(n, true)` for that name, which is also what they
return where `n` itself is stored natively. -/
theorem numeral_round_trip (lib : GoLib) (n : Int) :
    (-(2 : Int) ^ (lib.intSize - 1) ≤ n → n < (2 : Int) ^ (lib.intSize - 1) →
      ∀ (nvp : NameValues) (name : String),
        (Plain lib nvp name).1 = (Value.str (FormatInt n), true) →
        (Int_ lib nvp name).1 = (n, true)
        ∧ ∀ (nvp' : NameValues) (name' : String),
            (Plain lib nvp' name').1 = (Value.sint Signed.int n, true) →
            (Int_ lib nvp' name').1 = (Int_ lib nvp name).1)
    ∧ (-(2 : Int) ^ 63 ≤ n → n < (2 : Int) ^ 63 →
      ∀ (nvp : NameValues) (name : String),
        (Plain lib nvp name).1 = (Value.str (FormatInt n), true) →
        (Int64 lib nvp name).1 = (n, true)
        ∧ ∀ (nvp' : NameValues) (name' : String),
            (Plain lib nvp' name').1 = (Value.sint Signed.int64 n, true) →
            (Int64 lib nvp' name').1 = (Int64 lib nvp name).1) := by
  refine ⟨?_, ?_⟩
  · intro hlo hhi nvp name h
    have hb := intSize_bounds lib
    have hr : (Int_ lib nvp name).1 = (n, true) := by
      rw [Int_stored lib nvp name _ h]
      unfold Atoi
      rw [ParseInt_FormatInt lib.intSize n hb.1 hb.2 hlo hhi]
    refine ⟨hr, ?_⟩
    intro nvp' name' h'
    rw [hr]
    rw [Plain_eq] at h'
    simp [Int_, h']
  · intro hlo hhi nvp name h
    have hr : (Int64 lib nvp name).1 = (n, true) := by
      rw [Int64_stored lib nvp name _ h]
      rw [ParseInt_FormatInt 64 n (by norm_num) (by norm_num) hlo hhi]
    refine ⟨hr, ?_⟩
    intro nvp' name' h'
    rw [hr]
    rw [Plain_eq] at h'
    simp [Int64, h']

/-- C4 at `{"key1a": "1028", "key1b": 1028}` for `Int` and at
`{"key1a": "-9223372036854775808", "key1b": -9223372036854775808}` for `Int64` -/
theorem numeral_round_trip_witness :
    (Int_ asciiLib ⟨[("key1a", Value.str "1028"), ("key1b", Value.sint Signed.int 1028)], false⟩
        "key1a").1 = (1028, true)
    ∧ (Int_ asciiLib ⟨[("key1a", Value.str "1028"), ("key1b", Value.sint Signed.int 1028)], false⟩
        "key1b").1
      = (Int_ asciiLib ⟨[("key1a", Value.str "1028"), ("key1b", Value.sint Signed.int 1028)], false⟩
        "key1a").1
    ∧ (Int64 asciiLib ⟨[("key1a", Value.str "-9223372036854775808"),
        ("key1b", Value.sint Signed.int64 (-9223372036854775808))], false⟩ "key1a").1
      = (-9223372036854775808, true) :=
  ⟨((numeral_round_trip asciiLib 1028).1 (by decide) (by decide)
      ⟨[("key1a", Value.str "1028"), ("key1b", Value.sint Signed.int 1028)], false⟩ "key1a"
      (by decide)).1,
    ((numeral_round_trip asciiLib 1028).1 (by decide) (by decide)
      ⟨[("key1a", Value.str "1028"), ("key1b", Value.sint Signed.int 1028)], false⟩ "key1a"
      (by decide)).2
      ⟨[("key1a", Value.str "1028"), ("key1b", Value.sint Signed.int 1028)], false⟩ "key1b"
      (by decide),
    ((numeral_round_trip asciiLib (-9223372036854775808)).2 (by decide) (by decide)
      ⟨[("key1a", Value.str "-9223372036854775808"),
        ("key1b", Value.sint Signed.int64 (-9223372036854775808))], false⟩ "key1a"
      (by decide)).1⟩

theorem ParseInt_error (s : List Char) (bits : Nat) :
    ((ParseInt s bits).2 = some NumError.errSyntax → (ParseInt s bits).1 = 0)
    ∧ ((ParseInt s bits).2 = some NumError.errRange →
        (ParseInt s bits).1
          = if s.head? = some '-' then -(2 : Int) ^ (bits - 1) else (2 : Int) ^ (bits - 1) - 1) := by
  cases s with
  | nil => simp [ParseInt]
  | cons c t =>
    simp only [ParseInt, List.head?_cons, Option.some.injEq]
    split_ifs <;> simp_all

/-- C5 as the code has it. Malformed text: when the value stored under the name is a string on
which base-10 parsing into the target type fails, `Int` and `Int64` return `(0, true)` if the
failure is a syntax error (the text is not a numeral), and if it is a range error they return
with `true` the bound of the type on the side of the sign: the smallest value for a text that
begins with `-`, the largest otherwise. -/
theorem malformed_text (lib : GoLib) (nvp : NameValues) (name s : String)
    (h : (Plain lib nvp name).1 = (Value.str s, true)) :
    ((Atoi lib s).2 = some NumError.errSyntax → (Int_ lib nvp name).1 = (0, true))
    ∧ ((Atoi lib s).2 = some NumError.errRange →
        (Int_ lib nvp name).1
          = (if s.data.head? = some '-' then -(2 : Int) ^ (lib.intSize - 1)
              else (2 : Int) ^ (lib.intSize - 1) - 1, true))
    ∧ ((ParseInt s.data 64).2 = some NumError.errSyntax → (Int64 lib nvp name).1 = (0, true))
    ∧ ((ParseInt s.data 64).2 = some NumError.errRange →
        (Int64 lib nvp name).1
          = (if s.data.head? = some '-' then -(2 : Int) ^ 63 else (2 : Int) ^ 63 - 1, true)) := by
  rw [Int_stored lib nvp name s h, Int64_stored lib nvp name s h]
  unfold Atoi
  refine ⟨?_, ?_, ?_, ?_⟩
  · intro he
    rw [(ParseInt_error s.data lib.intSize).1 he]
  · intro he
    rw [(ParseInt_error s.data lib.intSize).2 he]
  · intro he
    rw [(ParseInt_error s.data 64).1 he]
  · intro he
    rw [(ParseInt_error s.data 64).2 he]

/-- C5 at `{"a": "12x", "b": "9223372036854775808", "c": "-9223372036854775809"}` -/
theorem malformed_text_witness :
    (Int_ asciiLib ⟨[("a", Value.str "12x"), ("b", Value.str "9223372036854775808"),
        ("c", Value.str "-9223372036854775809")], false⟩ "a").1 = (0, true)
    ∧ (Int_ asciiLib ⟨[("a", Value.str "12x"), ("b", Value.str "9223372036854775808"),
        ("c", Value.str "-9223372036854775809")], false⟩ "b").1 = (9223372036854775807, true)
    ∧ (Int64 asciiLib ⟨[("a", Value.str "12x"), ("b", Value.str "9223372036854775808"),
        ("c", Value.str "-9223372036854775809")], false⟩ "a").1 = (0, true)
    ∧ (Int64 asciiLib ⟨[("a", Value.str "12x"), ("b", Value.str "9223372036854775808"),
        ("c", Value.str "-9223372036854775809")], false⟩ "c").1 = (-9223372036854775808, true) :=
  ⟨(malformed_text asciiLib ⟨[("a", Value.str "12x"), ("b", Value.str "9223372036854775808"),
        ("c", Value.str "-9223372036854775809")], false⟩ "a" "12x" (by decide)).1 (by decide),
    (malformed_text asciiLib ⟨[("a", Value.str "12x"), ("b", Value.str "9223372036854775808"),
        ("c", Value.str "-9223372036854775809")], false⟩ "b" "9223372036854775808"
        (by decide)).2.1 (by decide),
    (malformed_text asciiLib ⟨[("a", Value.str "12x"), ("b", Value.str "9223372036854775808"),
        ("c", Value.str "-9223372036854775809")], false⟩ "a" "12x" (by decide)).2.2.1 (by decide),
    (malformed_text asciiLib ⟨[("a", Value.str "12x"), ("b", Value.str "9223372036854775808"),
        ("c", Value.str "-9223372036854775809")], false⟩ "c" "-9223372036854775809"
        (by decide)).2.2.2 (by decide)⟩

/-- C5 fails as stated: parsing `9223372036854775808` into 64 bits fails with a range error,
and on a collection that stores this text `Int` and `Int64` return `9223372036854775807`, not
`0`; a text that is no numeral at all, `99999999999999999999x`, gives the same. -/
theorem malformed_text_not_always_zero :
    (Plain asciiLib ⟨[("b", Value.str "9223372036854775808"),
        ("x", Value.str "99999999999999999999x")], false⟩ "b").1
      = (Value.str "9223372036854775808", true)
    ∧ (ParseInt "9223372036854775808".data 64).2 = some NumError.errRange
    ∧ (Atoi asciiLib "9223372036854775808").2 = some NumError.errRange
    ∧ (Int_ asciiLib ⟨[("b", Value.str "9223372036854775808"),
        ("x", Value.str "99999999999999999999x")], false⟩ "b").1 ≠ (0, true)
    ∧ (Int64 asciiLib ⟨[("b", Value.str "9223372036854775808"),
        ("x", Value.str "99999999999999999999x")], false⟩ "b").1 = (9223372036854775807, true)
    ∧ (Int64 asciiLib ⟨[("b", Value.str "9223372036854775808"),
        ("x", Value.str "99999999999999999999x")], false⟩ "x").1 = (9223372036854775807, true) := by
  decide

/-! ## Facts about the pattern -/

theorem wordChar_ne (c : Char) (h : wordChar c = true) : c ≠ '$' ∧ c ≠ '\x7d' := by
  constructor
  · intro hc
    rw [hc] at h
    revert h
    decide
  · intro hc
    rw [hc] at h
    revert h
    decide

theorem matchHere_some (s w : List Char) (h : matchHere s = some w) :
    (∀ c ∈ w, wordChar c = true) ∧ ∃ rest, s = matchText w ++ rest := by
  match s with
  | [] => simp [matchHere] at h
  | [_] => simp [matchHere] at h
  | c :: d :: t =>
    simp only [matchHere] at h
    split_ifs at h with hcd
    obtain ⟨hc, hd⟩ := hcd
    subst hc
    subst hd
    cases hdw : t.dropWhile wordChar with
    | nil => simp [hdw] at h
    | cons e r =>
      simp only [hdw] at h
      split_ifs at h with he
      injection h with hw
      subst he
      refine ⟨?_, r, ?_⟩
      · intro c hc
        rw [← hw] at hc
        exact (List.mem_takeWhile_imp hc)
      · have := List.takeWhile_append_dropWhile wordChar t
        rw [hdw, hw] at this
        simp [matchText, this]

theorem takeWhile_word (w rest : List Char) (hw : ∀ c ∈ w, wordChar c = true) :
    (w ++ '\x7d' :: rest).takeWhile wordChar = w := by
  induction w with
  | nil => simp [List.takeWhile, show wordChar '\x7d' = false from by decide]
  | cons a t ih =>
    simp only [List.cons_append, List.takeWhile, hw a (List.mem_cons_self _ _), List.append_eq]
    rw [ih (fun c hc => hw c (List.mem_cons_of_mem _ hc))]

theorem dropWhile_word (w rest : List Char) (hw : ∀ c ∈ w, wordChar c = true) :
    (w ++ '\x7d' :: rest).dropWhile wordChar = '\x7d' :: rest := by
  induction w with
  | nil => simp [List.dropWhile, show wordChar '\x7d' = false from by decide]
  | cons a t ih =>
    simp only [List.cons_append, List.dropWhile, hw a (List.mem_cons_self _ _), List.append_eq]
    exact ih (fun c hc => hw c (List.mem_cons_of_mem _ hc))

theorem matchHere_matchText (w rest : List Char) (hw : ∀ c ∈ w, wordChar c = true) :
    matchHere (matchText w ++ rest) = some w := by
  simp [matchText, matchHere, takeWhile_word w rest hw, dropWhile_word w rest hw]

/-! ## Facts about `startsWith` and `replaceFrom` -/

theorem startsWith_append (p r : List Char) : startsWith (p ++ r) p = true := by
  induction p with
  | nil => cases r <;> rfl
  | cons a t ih => simp [startsWith, ih]

theorem startsWith_words (w w' r : List Char) (hw : ∀ c ∈ w, wordChar c = true)
    (hw' : ∀ c ∈ w', wordChar c = true) (hne : w' ≠ w) :
    startsWith (w' ++ '\x7d' :: r) (w ++ ['\x7d']) = false := by
  induction w generalizing w' with
  | nil =>
    cases w' with
    | nil => exact absurd rfl hne
    | cons a t =>
      have ha := (wordChar_ne a (hw' a (List.mem_cons_self _ _))).2
      simp [startsWith, ha]
  | cons b u ih =>
    cases w' with
    | nil =>
      have hb := (wordChar_ne b (hw b (List.mem_cons_self _ _))).2
      have hb' : ¬ ('\x7d' = b) := fun h => hb h.symm
      simp [startsWith, hb']
    | cons a t =>
      simp only [List.cons_append, startsWith, List.append_eq]
      by_cases hab : a = b
      · subst hab
        have hne' : t ≠ u := fun h => hne (by rw [h])
        rw [ih t (fun c hc => hw c (List.mem_cons_of_mem _ hc))
          (fun c hc => hw' c (List.mem_cons_of_mem _ hc)) hne']
        simp
      · simp [hab]

theorem startsWith_matchText (w w' r : List Char) (hw : ∀ c ∈ w, wordChar c = true)
    (hw' : ∀ c ∈ w', wordChar c = true) (hne : w' ≠ w) :
    startsWith (matchText w' ++ r) (matchText w) = false := by
  simp only [matchText, List.cons_append, startsWith, List.append_eq, List.append_assoc,
    List.singleton_append, List.nil_append]
  rw [startsWith_words w w' r hw hw' hne]
  simp

theorem replaceFrom_skip (old new a b : List Char) :
    replaceFrom old new a.length (a ++ b) = replaceFrom old new 0 b := by
  induction a with
  | nil => rfl
  | cons c t ih =>
    cases b with
    | nil => simpa [replaceFrom] using ih
    | cons d u => simpa [replaceFrom] using ih

theorem replaceFrom_pass (p new a b : List Char) (ha : ∀ c ∈ a, c ≠ '$') :
    replaceFrom ('$' :: p) new 0 (a ++ b) = a ++ replaceFrom ('$' :: p) new 0 b := by
  induction a with
  | nil => rfl
  | cons c t ih =>
    have hc : c ≠ '$' := ha c (List.mem_cons_self _ _)
    simp only [List.cons_append, replaceFrom, startsWith, hc, decide_False, Bool.false_and,
      Bool.false_eq_true, if_false, List.append_eq]
    rw [ih (fun c hc => ha c (List.mem_cons_of_mem _ hc))]

theorem replaceFrom_other (w w' new b : List Char) (hw : ∀ c ∈ w, wordChar c = true)
    (hw' : ∀ c ∈ w', wordChar c = true) (hne : w' ≠ w) :
    replaceFrom (matchText w) new 0 (matchText w' ++ b)
      = matchText w' ++ replaceFrom (matchText w) new 0 b := by
  have hs := startsWith_matchText w w' b hw hw' hne
  have hpass := replaceFrom_pass ('\x7b' :: (w ++ ['\x7d'])) new ('\x7b' :: (w' ++ ['\x7d'])) b
    (by
      intro c hc
      simp only [List.mem_cons, List.mem_append, List.mem_singleton, List.not_mem_nil,
        or_false] at hc
      rcases hc with rfl | hc | rfl
      · decide
      · exact (wordChar_ne c (hw' c hc)).1
      · decide)
  have e : matchText w' ++ b = '$' :: (('\x7b' :: (w' ++ ['\x7d'])) ++ b) := by
    simp [matchText]
  rw [e, replaceFrom]
  rw [← e, hs]
  simp only [Bool.false_eq_true, if_false]
  rw [show matchText w = '$' :: ('\x7b' :: (w ++ ['\x7d'])) from rfl, hpass]
  simp [matchText]

theorem replaceFrom_same (w new b : List Char) :
    replaceFrom (matchText w) new 0 (matchText w ++ b)
      = new ++ replaceFrom (matchText w) new 0 b := by
  have hs := startsWith_append (matchText w) b
  have e : matchText w ++ b = '$' :: (('\x7b' :: (w ++ ['\x7d'])) ++ b) := by
    simp [matchText]
  rw [e, replaceFrom, ← e, hs]
  simp only [if_true]
  have hlen : (matchText w).length - 1 = ('\x7b' :: (w ++ ['\x7d'])).length := by
    simp [matchText]
  rw [hlen, replaceFrom_skip]

/-! ## Facts about the pieces of a template -/

theorem replaceFrom_expandAll (σ : List Char → List Char) (done : List (List Char))
    (w : List Char) (ts : List Tok) (hσ : ∀ u, ∀ c ∈ σ u, c ≠ '$')
    (hw : ∀ c ∈ w, wordChar c = true) (hts : ∀ tk ∈ ts, TokOk tk) :
    replaceFrom (matchText w) (σ w) 0 (expandAll σ done ts) = expandAll σ (w :: done) ts := by
  induction ts with
  | nil => rfl
  | cons tk ts ih =>
    have ih' := ih (fun tk h => hts tk (List.mem_cons_of_mem _ h))
    have hok := hts tk (List.mem_cons_self _ _)
    cases tk with
    | lit c =>
      have hc : c ≠ '$' := hok
      simp only [expandAll, Tok.expand]
      rw [show matchText w = '$' :: ('\x7b' :: (w ++ ['\x7d'])) from rfl,
        replaceFrom_pass _ _ [c] _ (by simpa using hc)]
      rw [show '$' :: ('\x7b' :: (w ++ ['\x7d'])) = matchText w from rfl, ih']
    | ph w' =>
      have hw' : ∀ c ∈ w', wordChar c = true := hok
      simp only [expandAll, Tok.expand]
      by_cases hd : w' ∈ done
      · have hd' : w' ∈ w :: done := List.mem_cons_of_mem _ hd
        rw [if_pos hd, if_pos hd']
        rw [show matchText w = '$' :: ('\x7b' :: (w ++ ['\x7d'])) from rfl,
          replaceFrom_pass _ _ (σ w') _ (hσ w')]
        rw [show '$' :: ('\x7b' :: (w ++ ['\x7d'])) = matchText w from rfl, ih']
      · rw [if_neg hd]
        by_cases hww : w' = w
        · subst hww
          rw [if_pos (List.mem_cons_self _ _), replaceFrom_same, ih']
        · have hd' : w' ∉ w :: done := by
            simp only [List.mem_cons, not_or]
            exact ⟨hww, hd⟩
          rw [if_neg hd', replaceFrom_other w w' _ _ hw hw' hww, ih']

theorem expandAll_nil_tokenizeFrom (σ : List Char → List Char) (k : Nat) (s : List Char) :
    expandAll σ [] (tokenizeFrom k s) = s.drop k := by
  induction s generalizing k with
  | nil => simp [tokenizeFrom, expandAll]
  | cons c t ih =>
    cases k with
    | succ k => simpa [tokenizeFrom] using ih k
    | zero =>
      simp only [tokenizeFrom, List.drop_zero]
      cases hm : matchHere (c :: t) with
      | none => simp [expandAll, Tok.expand, ih 0]
      | some w =>
        obtain ⟨_, rest, hrest⟩ := matchHere_some (c :: t) w hm
        simp only [expandAll, Tok.expand, List.not_mem_nil, if_false, ih]
        have ht : t = ('\x7b' :: (w ++ ['\x7d'])) ++ rest := by
          simp only [matchText, List.cons_append] at hrest
          injection hrest with _ h2
        have hdrop : t.drop (w.length + 2) = rest := by
          rw [ht]
          have hl : w.length + 2 = ('\x7b' :: (w ++ ['\x7d'])).length := by simp
          rw [hl, List.drop_left]
        rw [hdrop, hrest]

theorem findAllFrom_phWords (k : Nat) (s : List Char) :
    findAllFrom k s = (phWords (tokenizeFrom k s)).map matchText := by
  induction s generalizing k with
  | nil => simp [findAllFrom, tokenizeFrom, phWords]
  | cons c t ih =>
    cases k with
    | succ k => simpa [findAllFrom, tokenizeFrom] using ih k
    | zero =>
      simp only [findAllFrom, tokenizeFrom]
      cases hm : matchHere (c :: t) with
      | none => simpa [phWords] using ih 0
      | some w =>
        obtain ⟨_, rest, hrest⟩ := matchHere_some (c :: t) w hm
        simp only [phWords, List.map_cons, ih]
        congr 1
        rw [hrest]
        have hl : w.length + 3 = (matchText w).length := by simp [matchText]
        rw [hl, List.take_left]

theorem substituteFrom_expandAll (σ : List Char → List Char) (k : Nat) (s : List Char)
    (done : List (List Char)) (hdone : ∀ w ∈ phWords (tokenizeFrom k s), w ∈ done) :
    substituteFrom σ k s = expandAll σ done (tokenizeFrom k s) := by
  induction s generalizing k with
  | nil => simp [substituteFrom, tokenizeFrom, expandAll]
  | cons c t ih =>
    cases k with
    | succ k =>
      simp only [tokenizeFrom] at hdone
      simpa [substituteFrom, tokenizeFrom] using ih k hdone
    | zero =>
      simp only [substituteFrom, tokenizeFrom] at hdone ⊢
      cases hm : matchHere (c :: t) with
      | none =>
        simp only [hm, phWords] at hdone
        simp [expandAll, Tok.expand, ih 0 hdone]
      | some w =>
        simp only [hm, phWords, List.mem_cons, forall_eq_or_imp] at hdone
        simp [expandAll, Tok.expand, hdone.1, ih _ hdone.2]

theorem tokenizeFrom_ok (k : Nat) (s : List Char) (hs : DollarsOpenMatches s) :
    ∀ tk ∈ tokenizeFrom k s, TokOk tk := by
  induction s generalizing k with
  | nil => simp [tokenizeFrom]
  | cons c t ih =>
    have ht : DollarsOpenMatches t := by
      intro pre suf h
      exact hs (c :: pre) suf (by rw [h]; rfl)
    cases k with
    | succ k => simpa [tokenizeFrom] using ih k ht
    | zero =>
      simp only [tokenizeFrom]
      cases hm : matchHere (c :: t) with
      | none =>
        intro tk htk
        rcases List.mem_cons.1 htk with h1 | h1
        · subst h1
          intro hc
          have := hs [] t (by rw [hc]; rfl)
          rw [← hc, hm] at this
          simp at this
        · exact ih 0 ht tk h1
      | some w =>
        intro tk htk
        rcases List.mem_cons.1 htk with h1 | h1
        · subst h1
          exact (matchHere_some (c :: t) w hm).1
        · exact ih _ ht tk h1

theorem phWords_ok (ts : List Tok) (hts : ∀ tk ∈ ts, TokOk tk) :
    ∀ w ∈ phWords ts, ∀ c ∈ w, wordChar c = true := by
  induction ts with
  | nil => simp [phWords]
  | cons tk ts ih =>
    have ih' := ih (fun tk h => hts tk (List.mem_cons_of_mem _ h))
    cases tk with
    | lit c => simpa [phWords] using ih'
    | ph u =>
      intro w hw
      simp only [phWords, List.mem_cons] at hw
      rcases hw with h1 | h1
      · subst h1
        exact hts (Tok.ph w) (List.mem_cons_self _ _)
      · exact ih' w h1

/-! ## Facts about `Interpolate` -/

theorem EqualFold_iff (lib : GoLib) (s t : String) :
    lib.EqualFold s t = true ↔ s.data.map lib.foldRune = t.data.map lib.foldRune := by
  unfold GoLib.EqualFold
  exact beq_iff_eq

theorem EqualFold_false_iff (lib : GoLib) (s t : String) :
    lib.EqualFold s t = false ↔ s.data.map lib.foldRune ≠ t.data.map lib.foldRune := by
  rw [Ne, ← EqualFold_iff, Bool.not_eq_true]

theorem EqualFold_placeholder (lib : GoLib) (w : List Char) (n : String) :
    lib.EqualFold ⟨matchText w⟩ ("$\x7b" ++ n ++ "\x7d") = lib.EqualFold ⟨w⟩ n := by
  rw [Bool.eq_iff_iff, EqualFold_iff, EqualFold_iff]
  have h1 : ("$\x7b" ++ n ++ "\x7d").data = '$' :: '\x7b' :: (n.data ++ ['\x7d']) := by
    rw [String.data_append, String.data_append]
    rfl
  rw [h1]
  simp [matchText]

theorem interpolateFind_replacement (lib : GoLib) (w : List Char) (pair : GoMap) :
    (interpolateFind lib ⟨matchText w⟩ pair).1.data = replacementOf lib pair w := by
  induction pair with
  | nil => rfl
  | cons e t ih =>
    obtain ⟨n, v⟩ := e
    unfold replacementOf at ih ⊢
    simp only [interpolateFind, EqualFold_placeholder, List.find?_cons]
    cases hE : lib.EqualFold ⟨w⟩ n with
    | true => simp
    | false => simpa using ih

theorem replacementOf_no_dollar (lib : GoLib) (pair : GoMap)
    (hvals : ∀ e ∈ pair, '$' ∉ (anyToStr lib e.2).data) :
    ∀ u, ∀ c ∈ replacementOf lib pair u, c ≠ '$' := by
  intro u c hc
  unfold replacementOf at hc
  cases hf : pair.find? (fun e => lib.EqualFold ⟨u⟩ e.1) with
  | none =>
    rw [hf] at hc
    simp only [List.mem_singleton] at hc
    rw [hc]
    decide
  | some e =>
    rw [hf] at hc
    intro hd
    rw [hd] at hc
    exact hvals e (List.mem_of_find?_eq_some hf) hc

theorem Replace_matchText (nstr sval : String) (w : List Char) :
    (Replace nstr ⟨matchText w⟩ sval).data = replaceFrom (matchText w) sval.data 0 nstr.data := by
  unfold Replace
  rw [if_neg (by simp [matchText])]

theorem interpolateLoop_expand (lib : GoLib) (pair : GoMap) (ts : List Tok)
    (hvals : ∀ e ∈ pair, '$' ∉ (anyToStr lib e.2).data) (hts : ∀ tk ∈ ts, TokOk tk)
    (ws : List (List Char)) (hws : ∀ w ∈ ws, ∀ c ∈ w, wordChar c = true)
    (done : List (List Char)) (nstr : String) (vals : List Value)
    (hn : nstr.data = expandAll (replacementOf lib pair) done ts) :
    (interpolateLoop lib pair (ws.map (fun w => ⟨matchText w⟩)) nstr vals).1.data
      = expandAll (replacementOf lib pair) (ws.reverse ++ done) ts := by
  induction ws generalizing done nstr vals with
  | nil => simpa [interpolateLoop] using hn
  | cons w ws ih =>
    simp only [List.map_cons, interpolateLoop]
    rw [ih (fun u hu => hws u (List.mem_cons_of_mem _ hu)) (w :: done)]
    · simp
    · rw [Replace_matchText, interpolateFind_replacement, hn]
      exact replaceFrom_expandAll _ done w ts (replacementOf_no_dollar lib pair hvals)
        (hws w (List.mem_cons_self _ _)) hts

theorem Interpolate_substituteAll (lib : GoLib) (base : String) (nv : NameValues)
    (hvals : ∀ e ∈ nv.Pair, '$' ∉ (anyToStr lib e.2).data)
    (hbase : DollarsOpenMatches base.data) :
    (Interpolate lib base nv).1 = substituteAll lib nv.Pair base := by
  have hts := tokenizeFrom_ok 0 base.data hbase
  have hws := phWords_ok _ hts
  have hloop := interpolateLoop_expand lib nv.Pair (tokenizeFrom 0 base.data) hvals hts
    (phWords (tokenizeFrom 0 base.data)) hws [] base []
    (by rw [expandAll_nil_tokenizeFrom]; rfl)
  have hall : (FindAllString base)
      = (phWords (tokenizeFrom 0 base.data)).map (fun w => (⟨matchText w⟩ : String)) := by
    unfold FindAllString
    rw [findAllFrom_phWords, List.map_map]
    rfl
  have hsub := substituteFrom_expandAll (replacementOf lib nv.Pair) 0 base.data
    ((phWords (tokenizeFrom 0 base.data)).reverse ++ []) (by simp)
  unfold Interpolate substituteAll
  rw [hall, hsub, ← hloop]

theorem find?_perm_unique {α : Type} (p : α → Bool) (l l' : List α) (hperm : l'.Perm l)
    (huniq : ∀ a ∈ l, ∀ b ∈ l, p a = true → p b = true → a = b) :
    l'.find? p = l.find? p := by
  cases h : l.find? p with
  | none =>
    rw [List.find?_eq_none] at h ⊢
    intro x hx
    exact h x (hperm.mem_iff.1 hx)
  | some a =>
    have ha := List.mem_of_find?_eq_some h
    have hpa := List.find?_some h
    cases h' : l'.find? p with
    | none =>
      rw [List.find?_eq_none] at h'
      exact absurd hpa (h' a (hperm.mem_iff.2 ha))
    | some b =>
      have hb := hperm.mem_iff.1 (List.mem_of_find?_eq_some h')
      have hpb := List.find?_some h'
      rw [huniq b hb a ha hpb hpa]

theorem FoldDistinct_unique (lib : GoLib) (pair : GoMap) (hkeys : FoldDistinct lib pair)
    (w : String) : ∀ a ∈ pair, ∀ b ∈ pair,
      lib.EqualFold w a.1 = true → lib.EqualFold w b.1 = true → a = b := by
  intro a ha b hb h1 h2
  by_contra hne
  have hsymm : Symmetric (fun a b : String × Value => lib.EqualFold a.1 b.1 = false) := by
    intro x y hxy
    rw [EqualFold_false_iff] at hxy ⊢
    exact fun h => hxy h.symm
  have := List.Pairwise.forall hsymm hkeys ha hb hne
  rw [EqualFold_false_iff] at this
  rw [EqualFold_iff] at h1 h2
  exact this (h1.symm.trans h2)

theorem replacementOf_perm (lib : GoLib) (pair order : GoMap) (hkeys : FoldDistinct lib pair)
    (hperm : order.Perm pair) : replacementOf lib order = replacementOf lib pair := by
  funext w
  unfold replacementOf
  rw [find?_perm_unique _ pair order hperm (FoldDistinct_unique lib pair hkeys ⟨w⟩)]

/-- C10 as the code has it. Interpolation result string: for a collection whose keys are
pairwise distinct case-insensitively and whose values have no dollar sign in their string
form, and a template in which every dollar sign opens a match of the pattern, the string that
`Interpolate` returns is the template with each non-overlapping match replaced by the string
form of the value of the entry whose name equals the word case-insensitively, or by `"0"` when
there is no such entry, every character outside the matches being left as it was; and this is
so in whatever order the map is ranged over. -/
theorem interpolate_result_string (lib : GoLib) (base : String) (nv : NameValues)
    (hkeys : FoldDistinct lib nv.Pair)
    (hvals : ∀ e ∈ nv.Pair, '$' ∉ (anyToStr lib e.2).data)
    (hbase : DollarsOpenMatches base.data) :
    (Interpolate lib base nv).1 = substituteAll lib nv.Pair base
    ∧ ∀ order : GoMap, order.Perm nv.Pair →
        (Interpolate lib base ⟨order, nv.prepared⟩).1 = substituteAll lib nv.Pair base := by
  refine ⟨Interpolate_substituteAll lib base nv hvals hbase, ?_⟩
  intro order hperm
  rw [Interpolate_substituteAll lib base ⟨order, nv.prepared⟩
    (fun e he => hvals e (hperm.mem_iff.1 he)) hbase]
  unfold substituteAll
  rw [replacementOf_perm lib nv.Pair order hkeys hperm]

theorem dollarsOpen_sound (s : List Char) (h : dollarsOpen s = true) : DollarsOpenMatches s := by
  induction s with
  | nil =>
    intro pre suf hs
    cases pre <;> simp at hs
  | cons c t ih =>
    simp only [dollarsOpen, Bool.and_eq_true, Bool.or_eq_true, decide_eq_true_eq] at h
    intro pre suf hs
    cases pre with
    | nil =>
      simp only [List.nil_append, List.cons.injEq] at hs
      obtain ⟨hc, ht⟩ := hs
      subst hc
      subst ht
      rcases h.1 with h1 | h1
      · exact absurd rfl h1
      · exact h1
    | cons a pre' =>
      simp only [List.cons_append, List.cons.injEq] at hs
      exact ih h.2 pre' suf hs.2

/-- C10 at the template `Hello $\x7bname\x7d, age $\x7bAge\x7d $\x7bmissing\x7d` over
`{"name": "Zaldy", "AGE": "48"}` -/
theorem interpolate_result_string_witness :
    (Interpolate asciiLib "Hello $\x7bname\x7d, age $\x7bAge\x7d $\x7bmissing\x7d"
        ⟨[("name", Value.str "Zaldy"), ("AGE", Value.str "48")], false⟩).1
      = "Hello Zaldy, age 48 0"
    ∧ (Interpolate asciiLib "Hello $\x7bname\x7d, age $\x7bAge\x7d $\x7bmissing\x7d"
        ⟨[("AGE", Value.str "48"), ("name", Value.str "Zaldy")], false⟩).1
      = "Hello Zaldy, age 48 0" :=
  ⟨(interpolate_result_string asciiLib "Hello $\x7bname\x7d, age $\x7bAge\x7d $\x7bmissing\x7d"
      ⟨[("name", Value.str "Zaldy"), ("AGE", Value.str "48")], false⟩
      (by unfold FoldDistinct; decide) (by decide)
      (dollarsOpen_sound _ (by decide))).1.trans (by decide),
    ((interpolate_result_string asciiLib "Hello $\x7bname\x7d, age $\x7bAge\x7d $\x7bmissing\x7d"
      ⟨[("name", Value.str "Zaldy"), ("AGE", Value.str "48")], false⟩
      (by unfold FoldDistinct; decide) (by decide)
      (dollarsOpen_sound _ (by decide))).2
      [("AGE", Value.str "48"), ("name", Value.str "Zaldy")]
      (List.Perm.swap _ _ _)).trans (by decide)⟩

/-- C10 fails as stated. Over `{"a": "$\x7bb\x7d", "b": "x"}`, whose keys are distinct, the
template `$\x7ba\x7d$\x7bb\x7d` becomes `xx`: the pass for the second match rewrites the text
the first pass put in, where replacing each match by its value gives `$\x7bb\x7dx`.  Over
`{"a": "\x7bb\x7d", "b": "x"}` the template `$$\x7ba\x7d $\x7bb\x7d`, with a dollar sign that
opens no match, becomes `x x` where replacing each match gives `$\x7bb\x7d x`. -/
theorem interpolate_rewrites_inserted_text :
    (FoldDistinct asciiLib [("a", Value.str "$\x7bb\x7d"), ("b", Value.str "x")]
      ∧ (Interpolate asciiLib "$\x7ba\x7d$\x7bb\x7d"
          ⟨[("a", Value.str "$\x7bb\x7d"), ("b", Value.str "x")], false⟩).1 = "xx"
      ∧ substituteAll asciiLib [("a", Value.str "$\x7bb\x7d"), ("b", Value.str "x")]
          "$\x7ba\x7d$\x7bb\x7d" = "$\x7bb\x7dx")
    ∧ (FoldDistinct asciiLib [("a", Value.str "\x7bb\x7d"), ("b", Value.str "x")]
      ∧ (Interpolate asciiLib "$$\x7ba\x7d $\x7bb\x7d"
          ⟨[("a", Value.str "\x7bb\x7d"), ("b", Value.str "x")], false⟩).1 = "x x"
      ∧ substituteAll asciiLib [("a", Value.str "\x7bb\x7d"), ("b", Value.str "x")]
          "$$\x7ba\x7d $\x7bb\x7d" = "$\x7bb\x7d x") := by
  unfold FoldDistinct
  decide

theorem interpolateFind_value (lib : GoLib) (w : List Char) (pair : GoMap) :
    (interpolateFind lib ⟨matchText w⟩ pair).2 = valueOf lib pair w := by
  induction pair with
  | nil => rfl
  | cons e t ih =>
    obtain ⟨n, v⟩ := e
    unfold valueOf at ih ⊢
    simp only [interpolateFind, EqualFold_placeholder, List.find?_cons]
    cases hE : lib.EqualFold ⟨w⟩ n with
    | true => simp
    | false => simpa using ih

theorem interpolateLoop_vals (lib : GoLib) (pair : GoMap) (ms : List String) (nstr : String)
    (vals : List Value) :
    (interpolateLoop lib pair ms nstr vals).2
      = vals ++ ms.map (fun m => (interpolateFind lib m pair).2) := by
  induction ms generalizing nstr vals with
  | nil => simp [interpolateLoop]
  | cons m ms ih =>
    simp only [interpolateLoop, List.map_cons]
    rw [ih]
    simp

theorem FindAllString_matchWords (base : String) :
    FindAllString base = (matchWords base).map (fun w => (⟨matchText w⟩ : String)) := by
  unfold FindAllString matchWords
  rw [findAllFrom_phWords, List.map_map]
  rfl

theorem Interpolate_vals (lib : GoLib) (base : String) (nv : NameValues) :
    (Interpolate lib base nv).2 = (matchWords base).map (valueOf lib nv.Pair) := by
  unfold Interpolate
  rw [interpolateLoop_vals, FindAllString_matchWords, List.map_map, List.nil_append]
  apply List.map_congr_left
  intro w _
  exact interpolateFind_value lib w nv.Pair

theorem valueOf_perm (lib : GoLib) (pair order : GoMap) (hkeys : FoldDistinct lib pair)
    (hperm : order.Perm pair) : valueOf lib order = valueOf lib pair := by
  funext w
  unfold valueOf
  rw [find?_perm_unique _ pair order hperm (FoldDistinct_unique lib pair hkeys ⟨w⟩)]

/-- C11. Interpolation value list: for a collection whose keys are pairwise distinct
case-insensitively, the list that `Interpolate` returns has one element for each
non-overlapping match of the pattern in the template, in order of occurrence and repeated
placeholders counted each time; its `i`-th element is the stored value of the entry whose name
equals the `i`-th word case-insensitively, or the string `"0"` when there is no such entry;
and this is so in whatever order the map is ranged over. -/
theorem interpolate_value_list (lib : GoLib) (base : String) (nv : NameValues)
    (hkeys : FoldDistinct lib nv.Pair) :
    ((Interpolate lib base nv).2).length = (FindAllString base).length
    ∧ (Interpolate lib base nv).2 = (matchWords base).map (valueOf lib nv.Pair)
    ∧ (∀ (w : List Char) (e : String × Value), e ∈ nv.Pair → lib.EqualFold ⟨w⟩ e.1 = true →
        valueOf lib nv.Pair w = e.2)
    ∧ (∀ w : List Char, (∀ e ∈ nv.Pair, lib.EqualFold ⟨w⟩ e.1 = false) →
        valueOf lib nv.Pair w = Value.str "0")
    ∧ ∀ order : GoMap, order.Perm nv.Pair →
        (Interpolate lib base ⟨order, nv.prepared⟩).2 = (Interpolate lib base nv).2 := by
  refine ⟨?_, Interpolate_vals lib base nv, ?_, ?_, ?_⟩
  · rw [Interpolate_vals, FindAllString_matchWords, List.length_map, List.length_map]
  · intro w e he hw
    unfold valueOf
    cases hf : nv.Pair.find? (fun e => lib.EqualFold ⟨w⟩ e.1) with
    | none =>
      rw [List.find?_eq_none] at hf
      exact absurd hw (hf e he)
    | some e' =>
      have he' := List.mem_of_find?_eq_some hf
      have hw' := List.find?_some hf
      rw [FoldDistinct_unique lib nv.Pair hkeys ⟨w⟩ e' he' e he hw' hw]
  · intro w hw
    unfold valueOf
    have hf : nv.Pair.find? (fun e => lib.EqualFold ⟨w⟩ e.1) = none := by
      rw [List.find?_eq_none]
      intro e he
      simp [hw e he]
    rw [hf]
  · intro order hperm
    rw [Interpolate_vals, Interpolate_vals, valueOf_perm lib nv.Pair order hkeys hperm]

/-- C11 at the template `$\x7bage\x7d $\x7bNAME\x7d $\x7bmissing\x7d $\x7bage\x7d` over
`{"name": "Zaldy", "Age": 48}` -/
theorem interpolate_value_list_witness :
    (Interpolate asciiLib "$\x7bage\x7d $\x7bNAME\x7d $\x7bmissing\x7d $\x7bage\x7d"
        ⟨[("name", Value.str "Zaldy"), ("Age", Value.sint Signed.int 48)], false⟩).2
      = [Value.sint Signed.int 48, Value.str "Zaldy", Value.str "0", Value.sint Signed.int 48] :=
  (interpolate_value_list asciiLib "$\x7bage\x7d $\x7bNAME\x7d $\x7bmissing\x7d $\x7bage\x7d"
      ⟨[("name", Value.str "Zaldy"), ("Age", Value.sint Signed.int 48)], false⟩
      (by unfold FoldDistinct; decide)).2.1.trans (by decide)

/-! ## Facts about `SortByKey` -/

theorem mapLookup_mapSet (m : GoMap) (k k' : String) (v : Value) :
    mapLookup (mapSet m k v) k' = if k' = k then (v, true) else mapLookup m k' := by
  induction m with
  | nil =>
    by_cases h : k' = k
    · simp [mapSet, mapLookup, h]
    · have h' : ¬ (k = k') := fun e => h e.symm
      simp [mapSet, mapLookup, h, h']
  | cons e t ih =>
    obtain ⟨a, b⟩ := e
    by_cases ha : a = k
    · subst ha
      by_cases h : k' = a
      · simp [mapSet, mapLookup, h]
      · have h' : ¬ (a = k') := fun e => h e.symm
        simp [mapSet, mapLookup, h, h']
    · by_cases h : k' = k
      · subst h
        simp [mapSet, mapLookup, ha, ih]
      · by_cases hak : a = k'
        · simp [mapSet, mapLookup, ha, h, hak]
        · simp [mapSet, mapLookup, ha, h, hak, ih]

theorem mapLookup_flag_iff (l : GoMap) (q : String) :
    (mapLookup l q).2 = true ↔ ∃ x ∈ l, x.1 = q := by
  induction l with
  | nil => simp [mapLookup]
  | cons y ys ih =>
    obtain ⟨c, d⟩ := y
    by_cases hc : c = q
    · simp [mapLookup, hc]
    · simp only [mapLookup, hc, if_false, List.mem_cons, exists_eq_or_imp, false_or]
      exact ih

theorem mapLookup_true_mem (l : GoMap) (k : String) (v : Value)
    (h : mapLookup l k = (v, true)) : (k, v) ∈ l := by
  induction l with
  | nil => simp [mapLookup] at h
  | cons y ys ih =>
    obtain ⟨c, d⟩ := y
    by_cases hc : c = k
    · simp only [mapLookup, hc, if_true, Prod.mk.injEq, and_true] at h
      simp [hc, h]
    · simp only [mapLookup, hc, if_false] at h
      exact List.mem_cons_of_mem _ (ih h)

theorem mapSet_keys_nodup (m : GoMap) (k : String) (v : Value)
    (hm : m.Pairwise (fun a b => a.1 ≠ b.1)) :
    (mapSet m k v).Pairwise (fun a b => a.1 ≠ b.1) := by
  induction m with
  | nil => simp [mapSet]
  | cons e t ih =>
    obtain ⟨a, b⟩ := e
    rw [List.pairwise_cons] at hm
    by_cases ha : a = k
    · simp only [mapSet, ha, if_true]
      rw [List.pairwise_cons]
      exact ⟨fun e he => by simpa [ha] using hm.1 e he, hm.2⟩
    · simp only [mapSet, ha, if_false]
      rw [List.pairwise_cons]
      refine ⟨?_, ih hm.2⟩
      intro e he hae
      by_cases hek : e.1 = k
      · exact ha (hae.trans hek)
      · have h1 : (mapLookup (mapSet t k v) e.1).2 = true :=
          (mapLookup_flag_iff _ _).2 ⟨e, he, rfl⟩
        rw [mapLookup_mapSet, if_neg hek] at h1
        obtain ⟨x, hx, hxe⟩ := (mapLookup_flag_iff _ _).1 h1
        exact hm.1 x hx (hae.trans hxe.symm)

theorem sortFind_eq (lib : GoLib) (o : String) (pair ret : GoMap) :
    sortFind lib o pair ret
      = match pair.find? (fun e => lib.EqualFold o e.1) with
        | some e => mapSet ret e.1 e.2
        | none => ret := by
  induction pair with
  | nil => rfl
  | cons e t ih =>
    obtain ⟨k, v⟩ := e
    simp only [sortFind, List.find?_cons]
    cases hE : lib.EqualFold o k with
    | true => simp
    | false => simpa using ih

theorem FoldDistinct_keys (lib : GoLib) (pair : GoMap) (hkeys : FoldDistinct lib pair) :
    pair.Pairwise (fun a b => a.1 ≠ b.1) := by
  unfold FoldDistinct at hkeys
  refine hkeys.imp ?_
  intro a b hab heq
  rw [EqualFold_false_iff, heq] at hab
  exact hab rfl

theorem FoldDistinct_perm (lib : GoLib) (pair order : GoMap) (hkeys : FoldDistinct lib pair)
    (hperm : order.Perm pair) : FoldDistinct lib order := by
  unfold FoldDistinct at hkeys ⊢
  refine (hperm.pairwise_iff ?_).2 hkeys
  intro x y hxy
  rw [EqualFold_false_iff] at hxy ⊢
  exact fun h => hxy h.symm

theorem sortFind_lookup (lib : GoLib) (pair ret : GoMap) (o : String)
    (hkeys : FoldDistinct lib pair) (hret : TakenFrom pair ret) (k : String) (v : Value) :
    mapLookup (sortFind lib o pair ret) k = (v, true)
      ↔ (mapLookup ret k = (v, true)
          ∨ (mapLookup pair k = (v, true) ∧ lib.EqualFold o k = true)) := by
  have hnd := FoldDistinct_keys lib pair hkeys
  rw [sortFind_eq]
  cases hf : pair.find? (fun e => lib.EqualFold o e.1) with
  | none =>
    rw [List.find?_eq_none] at hf
    simp only []
    constructor
    · exact fun h => Or.inl h
    · rintro (h | ⟨h1, h2⟩)
      · exact h
      · exact absurd h2 (hf (k, v) (mapLookup_true_mem pair k v h1))
  | some e =>
    have he := List.mem_of_find?_eq_some hf
    have hoe := List.find?_some hf
    simp only [] at hoe
    have hle : mapLookup pair e.1 = (e.2, true) := mapLookup_mem pair e.1 e.2 hnd he
    simp only []
    rw [mapLookup_mapSet]
    by_cases hk : k = e.1
    · rw [if_pos hk]
      constructor
      · intro h
        simp only [Prod.mk.injEq, and_true] at h
        right
        rw [hk, ← h]
        exact ⟨hle, hoe⟩
      · rintro (h | ⟨h1, _⟩)
        · have := hret k v h
          rw [hk, hle] at this
          exact this
        · rw [hk, hle] at h1
          exact h1
    · rw [if_neg hk]
      constructor
      · exact fun h => Or.inl h
      · rintro (h | ⟨h1, h2⟩)
        · exact h
        · have hkv := mapLookup_true_mem pair k v h1
          have := FoldDistinct_unique lib pair hkeys o (k, v) hkv e he h2 hoe
          exact absurd (congrArg Prod.fst this) hk

theorem sortLoop_lookup (lib : GoLib) (pair : GoMap) (hkeys : FoldDistinct lib pair)
    (os : List String) (ret : GoMap) (hret : TakenFrom pair ret) (k : String) (v : Value) :
    mapLookup (sortLoop lib pair os ret) k = (v, true)
      ↔ (mapLookup ret k = (v, true)
          ∨ (mapLookup pair k = (v, true) ∧ ∃ o ∈ os, lib.EqualFold o k = true)) := by
  induction os generalizing ret with
  | nil => simp [sortLoop]
  | cons o os ih =>
    have hret' : TakenFrom pair (sortFind lib o pair ret) := by
      intro k' v' h
      rcases (sortFind_lookup lib pair ret o hkeys hret k' v').1 h with h1 | h1
      · exact hret k' v' h1
      · exact h1.1
    simp only [sortLoop]
    rw [ih _ hret', sortFind_lookup lib pair ret o hkeys hret]
    simp only [List.mem_cons, exists_eq_or_imp]
    tauto

theorem sortFind_keys_nodup (lib : GoLib) (o : String) (pair ret : GoMap)
    (h : ret.Pairwise (fun a b => a.1 ≠ b.1)) :
    (sortFind lib o pair ret).Pairwise (fun a b => a.1 ≠ b.1) := by
  rw [sortFind_eq]
  split
  · exact mapSet_keys_nodup _ _ _ h
  · exact h

theorem sortLoop_keys_nodup (lib : GoLib) (pair : GoMap) (os : List String) (ret : GoMap)
    (h : ret.Pairwise (fun a b => a.1 ≠ b.1)) :
    (sortLoop lib pair os ret).Pairwise (fun a b => a.1 ≠ b.1) := by
  induction os generalizing ret with
  | nil => exact h
  | cons o os ih => exact ih _ (sortFind_keys_nodup lib o pair ret h)

theorem mem_iff_mapLookup (l : GoMap) (hl : l.Pairwise (fun a b => a.1 ≠ b.1)) (k : String)
    (v : Value) : (k, v) ∈ l ↔ mapLookup l k = (v, true) :=
  ⟨mapLookup_mem l k v hl, mapLookup_true_mem l k v⟩

theorem SortByKey_entries (lib : GoLib) (values : NameValues) (ko : List String)
    (hkeys : FoldDistinct lib values.Pair) (hne : ko ≠ []) (k : String) (v : Value) :
    (k, v) ∈ (SortByKey lib values (some ko)).1.Pair
      ↔ ((k, v) ∈ values.Pair ∧ ∃ o ∈ ko, lib.EqualFold o k = true) := by
  have hlen : ¬ (ko.length = 0) := by
    intro h
    exact hne (List.length_eq_zero.1 h)
  simp only [SortByKey, hlen, if_false]
  rw [mem_iff_mapLookup _ (sortLoop_keys_nodup lib values.Pair ko [] List.Pairwise.nil),
    mem_iff_mapLookup _ (FoldDistinct_keys lib values.Pair hkeys),
    sortLoop_lookup lib values.Pair hkeys ko [] (by intro k v h; simp [mapLookup] at h)]
  simp [mapLookup]

/-- C12. Sort-by-key selection: for a collection whose keys are pairwise distinct
case-insensitively and a non-empty `keyOrder`, the entries of the result of `SortByKey` are
exactly the source entries, with the key spelling and the value of the source, whose key equals
some element of `keyOrder` case-insensitively: an element of `keyOrder` without a match adds
nothing, a source key that `keyOrder` does not name is absent, no key occurs twice, the source
collection is unchanged, and the entries are the same in whatever order the source map is
ranged over. -/
theorem sort_by_key_selection (lib : GoLib) (values : NameValues) (ko : List String)
    (hkeys : FoldDistinct lib values.Pair) (hne : ko ≠ []) :
    (∀ (k : String) (v : Value), (k, v) ∈ (SortByKey lib values (some ko)).1.Pair
        ↔ ((k, v) ∈ values.Pair ∧ ∃ o ∈ ko, lib.EqualFold o k = true))
    ∧ ((SortByKey lib values (some ko)).1.Pair).Pairwise (fun a b => a.1 ≠ b.1)
    ∧ (SortByKey lib values (some ko)).2 = values
    ∧ ∀ order : GoMap, order.Perm values.Pair → ∀ (k : String) (v : Value),
        (k, v) ∈ (SortByKey lib ⟨order, values.prepared⟩ (some ko)).1.Pair
          ↔ (k, v) ∈ (SortByKey lib values (some ko)).1.Pair := by
  have hlen : ¬ (ko.length = 0) := by
    intro h
    exact hne (List.length_eq_zero.1 h)
  refine ⟨SortByKey_entries lib values ko hkeys hne, ?_, ?_, ?_⟩
  · simp only [SortByKey, hlen, if_false]
    exact sortLoop_keys_nodup lib values.Pair ko [] List.Pairwise.nil
  · simp [SortByKey, hlen]
  · intro order hperm k v
    rw [SortByKey_entries lib values ko hkeys hne,
      SortByKey_entries lib ⟨order, values.prepared⟩ ko
        (FoldDistinct_perm lib values.Pair order hkeys hperm) hne]
    simp only [hperm.mem_iff]

/-- C12 at the entries `{"b": 2, "A": 1, "c": 3}` with the order `["a", "x", "B"]`: the entry
of `A` is in the result under the spelling of the source, the entry of `c` is not -/
theorem sort_by_key_selection_witness :
    ("A", Value.sint Signed.int 1) ∈ (SortByKey asciiLib ⟨[("b", Value.sint Signed.int 2),
        ("A", Value.sint Signed.int 1), ("c", Value.sint Signed.int 3)], false⟩
        (some ["a", "x", "B"])).1.Pair
    ∧ ("c", Value.sint Signed.int 3) ∉ (SortByKey asciiLib ⟨[("b", Value.sint Signed.int 2),
        ("A", Value.sint Signed.int 1), ("c", Value.sint Signed.int 3)], false⟩
        (some ["a", "x", "B"])).1.Pair :=
  ⟨((sort_by_key_selection asciiLib ⟨[("b", Value.sint Signed.int 2),
        ("A", Value.sint Signed.int 1), ("c", Value.sint Signed.int 3)], false⟩ ["a", "x", "B"]
      (by unfold FoldDistinct; decide) (by decide)).1 "A" (Value.sint Signed.int 1)).2
      ⟨by decide, by decide⟩,
    fun h => absurd (((sort_by_key_selection asciiLib ⟨[("b", Value.sint Signed.int 2),
        ("A", Value.sint Signed.int 1), ("c", Value.sint Signed.int 3)], false⟩ ["a", "x", "B"]
      (by unfold FoldDistinct; decide) (by decide)).1 "c" (Value.sint Signed.int 3)).1 h).2
      (by decide)⟩

/-- C13. Sort-by-key with no order: with a nil `keyOrder` and with an empty one `SortByKey`
returns the input collection, with the same keys and the same values, and leaves it as it
was. -/
theorem sort_by_key_no_order (lib : GoLib) (values : NameValues) :
    SortByKey lib values none = (values, values)
    ∧ SortByKey lib values (some []) = (values, values)
    ∧ (SortByKey lib values none).1.Pair = values.Pair
    ∧ (SortByKey lib values (some [])).1.Pair = values.Pair := by
  refine ⟨rfl, ?_, rfl, ?_⟩
  · simp [SortByKey]
  · simp [SortByKey]

/-! ## Facts about the pointer accessors -/

theorem PtrMirrors_wrap {α : Type} (r : α × Bool) :
    PtrMirrors (if r.2 = false then ((none : Option α), r.2) else (some r.1, r.2)) r := by
  unfold PtrMirrors
  cases h : r.2 <;> simp

theorem PtrInt_eq (lib : GoLib) (nvp : NameValues) (name : String) :
    (PtrInt lib nvp name).1
      = if (Int_ lib nvp name).1.2 = false then (none, (Int_ lib nvp name).1.2)
        else (some (Int_ lib nvp name).1.1, (Int_ lib nvp name).1.2) := by
  unfold PtrInt
  dsimp only
  split <;> rfl

theorem Int_unconverted (lib : GoLib) (nvp : NameValues) (name : String) (v : Value)
    (h : (Plain lib nvp name).1 = (v, true)) (hs : ∀ s, v ≠ Value.str s)
    (hn : ∀ n, v ≠ Value.sint Signed.int n) : (Int_ lib nvp name).1 = (0, true) := by
  rw [Plain_eq] at h
  unfold Int_
  simp only [h]
  cases v <;> simp_all

theorem Int64_unconverted (lib : GoLib) (nvp : NameValues) (name : String) (v : Value)
    (h : (Plain lib nvp name).1 = (v, true)) (hs : ∀ s, v ≠ Value.str s)
    (hn : ∀ n, v ≠ Value.sint Signed.int64 n) : (Int64 lib nvp name).1 = (0, true) := by
  rw [Plain_eq] at h
  unfold Int64
  simp only [h]
  cases v <;> simp_all

theorem Float64_unconverted (lib : GoLib) (nvp : NameValues) (name : String) (v : Value)
    (h : (Plain lib nvp name).1 = (v, true)) (hs : ∀ s, v ≠ Value.str s)
    (hn : ∀ f, v ≠ Value.float64 f) : (Float64 lib nvp name).1 = (⟨0⟩, true) := by
  rw [Plain_eq] at h
  unfold Float64
  simp only [h]
  cases v <;> simp_all

theorem String_unconverted (lib : GoLib) (nvp : NameValues) (name : String) (v : Value)
    (h : (Plain lib nvp name).1 = (v, true)) (hs : ∀ s, v ≠ Value.str s) :
    (String_ lib nvp name).1 = ("", true) := by
  rw [Plain_eq] at h
  unfold String_
  simp only [h]
  cases v <;> simp_all

theorem Decimal_unconverted (lib : GoLib) (nvp : NameValues) (name : String) (v : Value)
    (h : (Plain lib nvp name).1 = (v, true)) (hs : ∀ s, v ≠ Value.str s)
    (h1 : ∀ n, v ≠ Value.sint Signed.int n) (h2 : ∀ n, v ≠ Value.sint Signed.int64 n)
    (h3 : ∀ f, v ≠ Value.float32 f) (h4 : ∀ f, v ≠ Value.float64 f)
    (h5 : ∀ d, v ≠ Value.decimal d) : (Decimal lib nvp name).1 = (ssd.Decimal.zero, true) := by
  rw [Plain_eq] at h
  unfold Decimal
  simp only [h]
  cases v <;> simp_all

theorem Ptr_of_true {α : Type} (r : α × Bool) (a : α) (h : r = (a, true)) :
    (if r.2 = false then ((none : Option α), r.2) else (some r.1, r.2)) = (some a, true) := by
  rw [h]
  simp

theorem PtrString_eq (lib : GoLib) (nvp : NameValues) (name : String) :
    (PtrString lib nvp name).1
      = if (String_ lib nvp name).1.2 = false then (none, (String_ lib nvp name).1.2)
        else (some (String_ lib nvp name).1.1, (String_ lib nvp name).1.2) := by
  unfold PtrString
  dsimp only
  split <;> rfl

theorem PtrInt64_eq (lib : GoLib) (nvp : NameValues) (name : String) :
    (PtrInt64 lib nvp name).1
      = if (Int64 lib nvp name).1.2 = false then (none, (Int64 lib nvp name).1.2)
        else (some (Int64 lib nvp name).1.1, (Int64 lib nvp name).1.2) := by
  unfold PtrInt64
  dsimp only
  split <;> rfl

theorem PtrBool_eq (lib : GoLib) (nvp : NameValues) (name : String) :
    (PtrBool lib nvp name).1
      = if (Bool_ lib nvp name).1.2 = false then (none, (Bool_ lib nvp name).1.2)
        else (some (Bool_ lib nvp name).1.1, (Bool_ lib nvp name).1.2) := by
  unfold PtrBool
  dsimp only
  split <;> rfl

theorem PtrFloat64_eq (lib : GoLib) (nvp : NameValues) (name : String) :
    (PtrFloat64 lib nvp name).1
      = if (Float64 lib nvp name).1.2 = false then (none, (Float64 lib nvp name).1.2)
        else (some (Float64 lib nvp name).1.1, (Float64 lib nvp name).1.2) := by
  unfold PtrFloat64
  dsimp only
  split <;> rfl

theorem PtrDecimal_eq (lib : GoLib) (nvp : NameValues) (name : String) :
    (PtrDecimal lib nvp name).1
      = if (Decimal lib nvp name).1.2 = false then (none, (Decimal lib nvp name).1.2)
        else (some (Decimal lib nvp name).1.1, (Decimal lib nvp name).1.2) := by
  unfold PtrDecimal
  dsimp only
  split <;> rfl

theorem Bool_unconverted (lib : GoLib) (nvp : NameValues) (name : String) (v : Value)
    (h : (Plain lib nvp name).1 = (v, true)) (hs : ∀ s, v ≠ Value.str s) :
    (Bool_ lib nvp name).1 = (false, true) := by
  have hS := String_unconverted lib nvp name v h hs
  simp [Bool_, hS]

/-- C14 as the code has it. Pointer accessors: each of `PtrString`, `PtrInt`, `PtrInt64`,
`PtrBool`, `PtrFloat64`, `PtrPlain` and `PtrDecimal` returns the flag of its value accessor, a
nil reference exactly when that flag is false, and otherwise a reference to the value the
value accessor returns.  Where the stored value is present and cannot be converted this is:
for a stored text, a reference to `0` from `PtrInt` and `PtrInt64` when the parse fails with a
syntax error and to the bound of the type on the side of the sign when it fails with a range
error, a reference to `Decimal{}` from `PtrDecimal` when the decimal parser rejects the text
without its commas and spaces, a reference to `false` from `PtrBool` when the text is none of
`true`, `yes`, `1`, `-1`, `on`, and from `PtrFloat64` a reference to what `ParseFloat`
returned; for a stored value that is no text and not of the type an accessor converts, a
reference to the zero value. -/
theorem pointer_accessors (lib : GoLib) (nvp : NameValues) (name : String) :
    (PtrMirrors (PtrString lib nvp name).1 (String_ lib nvp name).1
      ∧ PtrMirrors (PtrInt lib nvp name).1 (Int_ lib nvp name).1
      ∧ PtrMirrors (PtrInt64 lib nvp name).1 (Int64 lib nvp name).1
      ∧ PtrMirrors (PtrBool lib nvp name).1 (Bool_ lib nvp name).1
      ∧ PtrMirrors (PtrFloat64 lib nvp name).1 (Float64 lib nvp name).1
      ∧ PtrMirrors (PtrPlain lib nvp name).1 (Plain lib nvp name).1
      ∧ PtrMirrors (PtrDecimal lib nvp name).1 (Decimal lib nvp name).1)
    ∧ (∀ s : String, (Plain lib nvp name).1 = (Value.str s, true) →
        ((Atoi lib s).2 = some NumError.errSyntax → (PtrInt lib nvp name).1 = (some 0, true))
        ∧ ((Atoi lib s).2 = some NumError.errRange →
            (PtrInt lib nvp name).1
              = (some (if s.data.head? = some '-' then -(2 : Int) ^ (lib.intSize - 1)
                  else (2 : Int) ^ (lib.intSize - 1) - 1), true))
        ∧ ((ParseInt s.data 64).2 = some NumError.errSyntax →
            (PtrInt64 lib nvp name).1 = (some 0, true))
        ∧ ((ParseInt s.data 64).2 = some NumError.errRange →
            (PtrInt64 lib nvp name).1
              = (some (if s.data.head? = some '-' then -(2 : Int) ^ 63
                  else (2 : Int) ^ 63 - 1), true))
        ∧ (lib.decimalFromString (stripSeparators s) = none →
            (PtrDecimal lib nvp name).1 = (some ssd.Decimal.zero, true))
        ∧ (s ∉ ["true", "yes", "1", "-1", "on"] →
            (PtrBool lib nvp name).1 = (some false, true))
        ∧ (PtrFloat64 lib nvp name).1 = (some (lib.parseFloat s).1, true))
    ∧ (∀ v : Value, (Plain lib nvp name).1 = (v, true) → (∀ s, v ≠ Value.str s) →
        (PtrString lib nvp name).1 = (some "", true)
        ∧ ((∀ b, v ≠ Value.bool b) → (PtrBool lib nvp name).1 = (some false, true))
        ∧ ((∀ n, v ≠ Value.sint Signed.int n) → (PtrInt lib nvp name).1 = (some 0, true))
        ∧ ((∀ n, v ≠ Value.sint Signed.int64 n) →
            (PtrInt64 lib nvp name).1 = (some 0, true))
        ∧ ((∀ f, v ≠ Value.float64 f) → (PtrFloat64 lib nvp name).1 = (some ⟨0⟩, true))
        ∧ ((∀ n, v ≠ Value.sint Signed.int n) → (∀ n, v ≠ Value.sint Signed.int64 n) →
            (∀ f, v ≠ Value.float32 f) → (∀ f, v ≠ Value.float64 f) →
            (∀ d, v ≠ Value.decimal d) →
            (PtrDecimal lib nvp name).1 = (some ssd.Decimal.zero, true))) := by
  refine ⟨⟨?_, ?_, ?_, ?_, ?_, ?_, ?_⟩, ?_, ?_⟩
  · have h := PtrMirrors_wrap (String_ lib nvp name).1
    unfold PtrString
    dsimp only
    split <;> simp_all
  · have h := PtrMirrors_wrap (Int_ lib nvp name).1
    unfold PtrInt
    dsimp only
    split <;> simp_all
  · have h := PtrMirrors_wrap (Int64 lib nvp name).1
    unfold PtrInt64
    dsimp only
    split <;> simp_all
  · have h := PtrMirrors_wrap (Bool_ lib nvp name).1
    unfold PtrBool
    dsimp only
    split <;> simp_all
  · have h := PtrMirrors_wrap (Float64 lib nvp name).1
    unfold PtrFloat64
    dsimp only
    split <;> simp_all
  · have h := PtrMirrors_wrap (Plain lib nvp name).1
    unfold PtrPlain
    dsimp only
    split <;> simp_all
  · have h := PtrMirrors_wrap (Decimal lib nvp name).1
    unfold PtrDecimal
    dsimp only
    split <;> simp_all
  · intro s hs
    have hI := Int_stored lib nvp name s hs
    have hJ := Int64_stored lib nvp name s hs
    refine ⟨?_, ?_, ?_, ?_, ?_, ?_, ?_⟩
    · intro he
      rw [PtrInt_eq]
      refine Ptr_of_true _ _ ?_
      rw [hI]
      unfold Atoi at he ⊢
      rw [(ParseInt_error s.data lib.intSize).1 he]
    · intro he
      rw [PtrInt_eq]
      refine Ptr_of_true _ _ ?_
      rw [hI]
      unfold Atoi at he ⊢
      rw [(ParseInt_error s.data lib.intSize).2 he]
    · intro he
      rw [PtrInt64_eq]
      refine Ptr_of_true _ _ ?_
      rw [hJ, (ParseInt_error s.data 64).1 he]
    · intro he
      rw [PtrInt64_eq]
      refine Ptr_of_true _ _ ?_
      rw [hJ, (ParseInt_error s.data 64).2 he]
    · intro he
      rw [PtrDecimal_eq]
      refine Ptr_of_true _ _ ?_
      rw [Decimal_stored lib nvp name s hs]
      unfold ssd.NewFromString
      rw [he]
    · intro he
      rw [PtrBool_eq]
      refine Ptr_of_true _ _ ?_
      have hS := String_stored lib nvp name s hs
      simp only [List.mem_cons, List.mem_singleton, List.not_mem_nil, or_false, not_or] at he
      simp [Bool_, hS, he]
    · rw [PtrFloat64_eq]
      refine Ptr_of_true _ _ ?_
      rw [Plain_eq] at hs
      simp [Float64, hs]
  · intro v hv hs
    refine ⟨?_, ?_, ?_, ?_, ?_, ?_⟩
    · rw [PtrString_eq]
      exact Ptr_of_true _ _ (String_unconverted lib nvp name v hv hs)
    · intro _
      rw [PtrBool_eq]
      exact Ptr_of_true _ _ (Bool_unconverted lib nvp name v hv hs)
    · intro hn
      rw [PtrInt_eq]
      exact Ptr_of_true _ _ (Int_unconverted lib nvp name v hv hs hn)
    · intro hn
      rw [PtrInt64_eq]
      exact Ptr_of_true _ _ (Int64_unconverted lib nvp name v hv hs hn)
    · intro hn
      rw [PtrFloat64_eq]
      exact Ptr_of_true _ _ (Float64_unconverted lib nvp name v hv hs hn)
    · intro h1 h2 h3 h4 h5
      rw [PtrDecimal_eq]
      exact Ptr_of_true _ _ (Decimal_unconverted lib nvp name v hv hs h1 h2 h3 h4 h5)

/-- C14 at `{"key1": "This is a string", "key2": "12x", "key3": "-9223372036854775809",
"key4": 7}`: `PtrString` of an unknown name is nil with `false` and of `key1` refers to the
text, `PtrInt` of `key2` refers to `0`, `PtrInt64` of `key3` refers to the smallest value,
`PtrString` of `key4` refers to the empty text -/
theorem pointer_accessors_witness :
    (PtrString asciiLib ⟨[("key1", Value.str "This is a string"), ("key2", Value.str "12x"),
        ("key3", Value.str "-9223372036854775809"), ("key4", Value.sint Signed.int 7)],
        false⟩ "unknown").1 = (none, false)
    ∧ (PtrString asciiLib ⟨[("key1", Value.str "This is a string"), ("key2", Value.str "12x"),
        ("key3", Value.str "-9223372036854775809"), ("key4", Value.sint Signed.int 7)],
        false⟩ "key1").1.1 = some "This is a string"
    ∧ (PtrInt asciiLib ⟨[("key1", Value.str "This is a string"), ("key2", Value.str "12x"),
        ("key3", Value.str "-9223372036854775809"), ("key4", Value.sint Signed.int 7)],
        false⟩ "key2").1 = (some 0, true)
    ∧ (PtrInt64 asciiLib ⟨[("key1", Value.str "This is a string"), ("key2", Value.str "12x"),
        ("key3", Value.str "-9223372036854775809"), ("key4", Value.sint Signed.int 7)],
        false⟩ "key3").1 = (some (-9223372036854775808), true)
    ∧ (PtrString asciiLib ⟨[("key1", Value.str "This is a string"), ("key2", Value.str "12x"),
        ("key3", Value.str "-9223372036854775809"), ("key4", Value.sint Signed.int 7)],
        false⟩ "key4").1 = (some "", true) := by
  have h1 := (pointer_accessors asciiLib
    ⟨[("key1", Value.str "This is a string"), ("key2", Value.str "12x"),
      ("key3", Value.str "-9223372036854775809"), ("key4", Value.sint Signed.int 7)],
      false⟩ "unknown").1.1
  have h2 := (pointer_accessors asciiLib
    ⟨[("key1", Value.str "This is a string"), ("key2", Value.str "12x"),
      ("key3", Value.str "-9223372036854775809"), ("key4", Value.sint Signed.int 7)],
      false⟩ "key1").1.1
  have h3 := (pointer_accessors asciiLib
    ⟨[("key1", Value.str "This is a string"), ("key2", Value.str "12x"),
      ("key3", Value.str "-9223372036854775809"), ("key4", Value.sint Signed.int 7)],
      false⟩ "key2").2.1 "12x" (by decide)
  have h4 := (pointer_accessors asciiLib
    ⟨[("key1", Value.str "This is a string"), ("key2", Value.str "12x"),
      ("key3", Value.str "-9223372036854775809"), ("key4", Value.sint Signed.int 7)],
      false⟩ "key3").2.1 "-9223372036854775809" (by decide)
  have h5 := (pointer_accessors asciiLib
    ⟨[("key1", Value.str "This is a string"), ("key2", Value.str "12x"),
      ("key3", Value.str "-9223372036854775809"), ("key4", Value.sint Signed.int 7)],
      false⟩ "key4").2.2 (Value.sint Signed.int 7) (by decide) (by simp)
  refine ⟨?_, ?_, h3.1 (by decide), (h4.2.2.2.1 (by decide)).trans (by decide), h5.1⟩
  · have hf : (PtrString asciiLib
        ⟨[("key1", Value.str "This is a string"), ("key2", Value.str "12x"),
          ("key3", Value.str "-9223372036854775809"), ("key4", Value.sint Signed.int 7)],
          false⟩ "unknown").1.2 = false := h1.1.trans (by decide)
    exact Prod.ext (h1.2.1.2 hf) hf
  · exact (h2.2.2 (by decide)).trans (by decide)

/-- C14 fails as stated: the text `9223372036854775808` is present and cannot be converted,
parsing it into 64 bits fails with a range error, and `PtrInt` and `PtrInt64` return a
reference to `9223372036854775807`, not to the zero value. -/
theorem pointer_to_bound_not_zero :
    (Plain asciiLib ⟨[("big", Value.str "9223372036854775808")], false⟩ "big").1
      = (Value.str "9223372036854775808", true)
    ∧ (ParseInt "9223372036854775808".data 64).2 = some NumError.errRange
    ∧ (PtrInt64 asciiLib ⟨[("big", Value.str "9223372036854775808")], false⟩ "big").1
      = (some 9223372036854775807, true)
    ∧ (PtrInt asciiLib ⟨[("big", Value.str "9223372036854775808")], false⟩ "big").1
      = (some 9223372036854775807, true)
    ∧ (PtrInt64 asciiLib ⟨[("big", Value.str "9223372036854775808")], false⟩ "big").1
      ≠ (some 0, true) := by
  decide

/-! ## Facts about the generic accessor -/

theorem mapIndex_Plain (lib : GoLib) (nvs : NameValues) (name : String) :
    mapIndex (ensurePrepared lib nvs).Pair (lib.toLower name) = (Plain lib nvs name).1.1 := rfl

theorem NameValueGet_nil (lib : GoLib) (T : GoType) (nvs : NameValues) (name : String)
    (h : (Plain lib nvs name).1.1 = Value.nil) :
    (NameValueGet lib T nvs name).1 = some (zeroOf T) := by
  rw [← mapIndex_Plain] at h
  unfold NameValueGet
  simp only [h]

theorem NameValueGet_absent (lib : GoLib) (T : GoType) (nvs : NameValues) (name : String)
    (h : (Exists lib nvs name).1 = false) :
    (NameValueGet lib T nvs name).1 = some (zeroOf T) :=
  NameValueGet_nil lib T nvs name (mapLookup_false _ _ h)

/-- The body of `NameValueGetPtr` is `value := NameValueGet[T](nvs, name); return &value`:
whenever `NameValueGet` returns a value the result is a reference to that value, and for a name
that matches no key it is a reference to the zero value of `T`. -/
theorem NameValueGetPtr_wraps (lib : GoLib) (T : GoType) (nvs : NameValues)
    (name : String) :
    (∀ v : Value, (NameValueGet lib T nvs name).1 = some v →
        (NameValueGetPtr lib T nvs name).1 = some (some v))
    ∧ ((Exists lib nvs name).1 = false →
        (NameValueGetPtr lib T nvs name).1 = some (some (zeroOf T))) := by
  refine ⟨?_, ?_⟩
  · intro v hv
    unfold NameValueGetPtr
    simp [hv]
  · intro h
    unfold NameValueGetPtr
    simp [NameValueGet_absent lib T nvs name h]

/-- C15. Generic pointer accessor: `NameValueGetPtr` does not return a nil reference for a
name that matches no key. On the collection of `TestNameValuesPtr` the name `namex` matches no
key, `PtrString` returns nil with `false` for it, and `NameValueGetPtr[string]` returns a
reference to the empty string, not nil; for the present name `age` read as `int` it returns a
reference to the `48` that `NameValueGet` returns. -/
theorem generic_pointer_absent_not_nil :
    (Exists asciiLib ⟨[("name", Value.str "Zaldy"), ("band", Value.str "Razzie"),
        ("active", Value.bool false), ("age", Value.str "48"), ("man", Value.str "true")],
        false⟩ "namex").1 = false
    ∧ (PtrString asciiLib ⟨[("name", Value.str "Zaldy"), ("band", Value.str "Razzie"),
        ("active", Value.bool false), ("age", Value.str "48"), ("man", Value.str "true")],
        false⟩ "namex").1 = (none, false)
    ∧ (NameValueGetPtr asciiLib GoType.string ⟨[("name", Value.str "Zaldy"),
        ("band", Value.str "Razzie"), ("active", Value.bool false), ("age", Value.str "48"),
        ("man", Value.str "true")], false⟩ "namex").1 = some (some (Value.str ""))
    ∧ (NameValueGetPtr asciiLib GoType.string ⟨[("name", Value.str "Zaldy"),
        ("band", Value.str "Razzie"), ("active", Value.bool false), ("age", Value.str "48"),
        ("man", Value.str "true")], false⟩ "namex").1 ≠ some none
    ∧ (NameValueGet asciiLib (GoType.sint Signed.int) ⟨[("name", Value.str "Zaldy"),
        ("band", Value.str "Razzie"), ("active", Value.bool false), ("age", Value.str "48"),
        ("man", Value.str "true")], false⟩ "age").1 = some (Value.sint Signed.int 48)
    ∧ (NameValueGetPtr asciiLib (GoType.sint Signed.int) ⟨[("name", Value.str "Zaldy"),
        ("band", Value.str "Razzie"), ("active", Value.bool false), ("age", Value.str "48"),
        ("man", Value.str "true")], false⟩ "age").1 = some (some (Value.sint Signed.int 48)) := by
  decide

/-- C17. `NameValueGet` aborts: with a text stored, `NameValueGet[float32]` asserts the
`float64` that `ParseFloat` returned to be a `float32` and panics, and with a `bool` stored
`NameValueGet[int]` asserts it to be an `int` and panics. -/
theorem generic_accessor_panics :
    (NameValueGet asciiLib GoType.float32 ⟨[("name", Value.str "Zaldy"),
        ("band", Value.str "Razzie"), ("active", Value.bool false), ("age", Value.str "48"),
        ("man", Value.str "true")], false⟩ "age").1 = none
    ∧ (NameValueGet asciiLib (GoType.sint Signed.int) ⟨[("name", Value.str "Zaldy"),
        ("band", Value.str "Razzie"), ("active", Value.bool false), ("age", Value.str "48"),
        ("man", Value.str "true")], false⟩ "active").1 = none := by
  decide

theorem parseUintLoop_range_val (M : Nat) (cs : List Char) (n : Nat)
    (h : (parseUintLoop M cs n).2 = some NumError.errRange) : (parseUintLoop M cs n).1 = M := by
  induction cs generalizing n with
  | nil => simp [parseUintLoop] at h
  | cons c cs ih =>
    cases hd : digitVal c with
    | none => simp [parseUintLoop, hd] at h
    | some d =>
      simp only [parseUintLoop, hd] at h ⊢
      split_ifs at h ⊢ with h1 h2
      all_goals first | rfl | exact ih _ h

theorem parseUintLoop_widen (M M' : Nat) (hM : M ≤ M') (cs : List Char) (n : Nat)
    (h : (parseUintLoop M cs n).2 ≠ some NumError.errRange) :
    parseUintLoop M' cs n = parseUintLoop M cs n := by
  induction cs generalizing n with
  | nil => rfl
  | cons c cs ih =>
    cases hd : digitVal c with
    | none => simp [parseUintLoop, hd]
    | some d =>
      simp only [parseUintLoop, hd] at h ⊢
      split_ifs at h with h1 h2
      · simp at h
      · simp at h
      · rw [if_neg h1, if_neg h1, if_neg h2]
        have h2' : ¬ ((n * 10 % 2 ^ 64 + d) % 2 ^ 64 < n * 10 % 2 ^ 64
            ∨ M' < (n * 10 % 2 ^ 64 + d) % 2 ^ 64) := by
          intro hc
          apply h2
          rcases hc with hc | hc
          · exact Or.inl hc
          · exact Or.inr (by omega)
        rw [if_neg h2']
        exact ih _ h

theorem ParseUint_widen (s : List Char) (h : (ParseUint s 32).2 ≠ some NumError.errRange) :
    ParseUint s 64 = ParseUint s 32 := by
  unfold ParseUint at h ⊢
  by_cases hs : s = []
  · simp [hs]
  · simp only [hs, if_false] at h ⊢
    exact parseUintLoop_widen _ _ (by norm_num) s 0 h

theorem ParseUint_range_val (s : List Char) (bits : Nat)
    (h : (ParseUint s bits).2 = some NumError.errRange) : (ParseUint s bits).1 = 2 ^ bits - 1 := by
  unfold ParseUint at h ⊢
  by_cases hs : s = []
  · simp [hs] at h
  · simp only [hs, if_false] at h ⊢
    exact parseUintLoop_range_val _ s 0 h

theorem ParseInt_widen (s : List Char) (h : (ParseInt s 32).2 ≠ some NumError.errRange) :
    ParseInt s 64 = ParseInt s 32 := by
  cases s with
  | nil => rfl
  | cons c t =>
    by_cases hr : (ParseUint (if c = '+' ∨ c = '-' then t else c :: t) 32).2
        = some NumError.errRange
    · exfalso
      apply h
      have hv := ParseUint_range_val _ 32 hr
      simp only [ParseInt, hr, hv]
      by_cases hc : c = '-' <;> simp [hc]
    · have hw := ParseUint_widen _ hr
      simp only [ParseInt, hw] at h ⊢
      generalize ParseUint (if c = '+' ∨ c = '-' then t else c :: t) 32 = u at h hr ⊢
      by_cases hs : u.2 = some NumError.errSyntax
      · simp [hs]
      · simp only [hs, if_false] at h ⊢
        by_cases h1 : decide (c = '-') = false ∧ 2 ^ (32 - 1) ≤ u.1
        · rw [if_pos h1] at h
          exact absurd rfl h
        by_cases h2 : decide (c = '-') = true ∧ 2 ^ (32 - 1) < u.1
        · rw [if_neg h1, if_pos h2] at h
          exact absurd rfl h
        have h1' : ¬ (decide (c = '-') = false ∧ 2 ^ (64 - 1) ≤ u.1) := by
          intro hc
          apply h1
          refine ⟨hc.1, ?_⟩
          have := hc.2
          norm_num at this ⊢
          omega
        have h2' : ¬ (decide (c = '-') = true ∧ 2 ^ (64 - 1) < u.1) := by
          intro hc
          apply h2
          refine ⟨hc.1, ?_⟩
          have := hc.2
          norm_num at this ⊢
          omega
        rw [if_neg h1', if_neg h2', if_neg h1, if_neg h2]
theorem NameValueGet_str (lib : GoLib) (T : GoType) (nvs : NameValues) (name s : String)
    (h : (Plain lib nvs name).1 = (Value.str s, true)) :
    (NameValueGet lib T nvs name).1
      = match T with
        | GoType.sint Signed.int => some (Value.sint Signed.int (ParseInt s.data 32).1)
        | GoType.sint Signed.int64 => some (Value.sint Signed.int64 (ParseInt s.data 64).1)
        | GoType.bool => some (Value.bool (ParseBool s).1)
        | GoType.float32 => none
        | GoType.float64 => some (Value.float64 (lib.parseFloat s).1)
        | _ => assertType T (Value.str s) := by
  have hi : mapIndex (ensurePrepared lib nvs).Pair (lib.toLower name) = Value.str s := by
    rw [mapIndex_Plain, h]
  unfold NameValueGet
  simp only [hi]
  split <;> rfl

theorem NameValueGet_native (lib : GoLib) (T : GoType) (nvs : NameValues) (name : String)
    (v : Value) (h : (Plain lib nvs name).1 = (v, true)) (hT : dynType v = some T)
    (hs : ∀ s, v ≠ Value.str s) : (NameValueGet lib T nvs name).1 = some v := by
  have hi : mapIndex (ensurePrepared lib nvs).Pair (lib.toLower name) = v := by
    rw [mapIndex_Plain, h]
  unfold NameValueGet
  rw [hi]
  cases v <;> simp_all [assertType, dynType]

theorem ParseBool_agrees (s : String)
    (hs : s ∉ ["yes", "-1", "on", "t", "T", "TRUE", "True"]) :
    (ParseBool s).1
      = (decide (s = "true") || decide (s = "yes") || decide (s = "1")
          || decide (s = "-1") || decide (s = "on")) := by
  simp only [List.mem_cons, List.mem_singleton, List.not_mem_nil, or_false, not_or] at hs
  obtain ⟨h1, h2, h3, h4, h5, h6, h7⟩ := hs
  unfold ParseBool
  simp only [List.mem_cons, List.mem_singleton, List.not_mem_nil, or_false, h1, h2, h3, h4, h5,
    h6, h7, false_or, or_false, decide_False, Bool.or_false, Bool.false_or]
  by_cases ha : s = "1"
  · simp [ha]
  · by_cases hb : s = "true"
    · simp [hb]
    · simp only [ha, hb, false_or, or_false, if_false, decide_False, Bool.or_false]
      split <;> rfl

/-- C16 as the code has it. The generic accessor agrees with the typed accessors where both
take the same path: for a name that is absent or stores nil, `NameValueGet[string]`,
`NameValueGet[int]`, `NameValueGet[int64]` and `NameValueGet[bool]` return the first result of
`String`, `Int`, `Int64` and `Bool`; for a stored text `s` so do `NameValueGet[string]` and
`NameValueGet[int64]`, `NameValueGet[int]` when `int` has 32 bits or parsing `s` into 32 bits
meets no range error, and `NameValueGet[bool]` when `s` is none of `yes`, `-1`, `on`, `t`,
`T`, `TRUE`, `True`; for a natively stored `int` or `int64` so do `NameValueGet[int]` and
`NameValueGet[int64]`. -/
theorem generic_agrees_with_typed (lib : GoLib) (nvs : NameValues) (name : String) :
    ((Plain lib nvs name).1.1 = Value.nil →
      (NameValueGet lib GoType.string nvs name).1 = some (Value.str (String_ lib nvs name).1.1)
      ∧ (NameValueGet lib (GoType.sint Signed.int) nvs name).1
          = some (Value.sint Signed.int (Int_ lib nvs name).1.1)
      ∧ (NameValueGet lib (GoType.sint Signed.int64) nvs name).1
          = some (Value.sint Signed.int64 (Int64 lib nvs name).1.1)
      ∧ (NameValueGet lib GoType.bool nvs name).1 = some (Value.bool (Bool_ lib nvs name).1.1))
    ∧ (∀ s : String, (Plain lib nvs name).1 = (Value.str s, true) →
      (NameValueGet lib GoType.string nvs name).1 = some (Value.str (String_ lib nvs name).1.1)
      ∧ (NameValueGet lib (GoType.sint Signed.int64) nvs name).1
          = some (Value.sint Signed.int64 (Int64 lib nvs name).1.1)
      ∧ ((ParseInt s.data 32).2 ≠ some NumError.errRange ∨ lib.is64 = false →
          (NameValueGet lib (GoType.sint Signed.int) nvs name).1
            = some (Value.sint Signed.int (Int_ lib nvs name).1.1))
      ∧ (s ∉ ["yes", "-1", "on", "t", "T", "TRUE", "True"] →
          (NameValueGet lib GoType.bool nvs name).1
            = some (Value.bool (Bool_ lib nvs name).1.1)))
    ∧ (∀ n : Int, (Plain lib nvs name).1 = (Value.sint Signed.int n, true) →
        (NameValueGet lib (GoType.sint Signed.int) nvs name).1
          = some (Value.sint Signed.int (Int_ lib nvs name).1.1))
    ∧ (∀ m : Int, (Plain lib nvs name).1 = (Value.sint Signed.int64 m, true) →
        (NameValueGet lib (GoType.sint Signed.int64) nvs name).1
          = some (Value.sint Signed.int64 (Int64 lib nvs name).1.1)) := by
  refine ⟨?_, ?_, ?_, ?_⟩
  · intro h
    have hp : mapLookup (ensurePrepared lib nvs).Pair (lib.toLower name)
        = (Value.nil, (mapLookup (ensurePrepared lib nvs).Pair (lib.toLower name)).2) :=
      Prod.ext h rfl
    have hS : (String_ lib nvs name).1.1 = "" := by
      unfold String_
      dsimp only
      rw [hp]
      split <;> rfl
    refine ⟨?_, ?_, ?_, ?_⟩
    · rw [NameValueGet_nil lib _ nvs name h, hS]
      rfl
    · rw [NameValueGet_nil lib _ nvs name h]
      unfold Int_
      dsimp only
      rw [hp]
      split <;> rfl
    · rw [NameValueGet_nil lib _ nvs name h]
      unfold Int64
      dsimp only
      rw [hp]
      split <;> rfl
    · rw [NameValueGet_nil lib _ nvs name h]
      unfold Bool_
      dsimp only
      rw [hS]
      split
      · rename_i hf
        rw [hf]
        rfl
      · rfl
  · intro s h
    have hS := String_stored lib nvs name s h
    refine ⟨?_, ?_, ?_, ?_⟩
    · rw [NameValueGet_str lib _ nvs name s h, hS]
      rfl
    · rw [NameValueGet_str lib _ nvs name s h, Int64_stored lib nvs name s h]
    · intro hc
      rw [NameValueGet_str lib _ nvs name s h, Int_stored lib nvs name s h]
      unfold Atoi GoLib.intSize
      rcases hc with hc | hc
      · by_cases h64 : lib.is64 = true
        · simp only [h64, if_true]
          rw [ParseInt_widen s.data hc]
        · simp [h64]
      · simp [hc]
    · intro hc
      rw [NameValueGet_str lib _ nvs name s h]
      simp only [Bool_, hS, Bool.true_eq_false, if_false]
      rw [ParseBool_agrees s hc]
  · intro n h
    rw [NameValueGet_native lib _ nvs name _ h rfl (by simp)]
    rw [Plain_eq] at h
    simp [Int_, h]
  · intro m h
    rw [NameValueGet_native lib _ nvs name _ h rfl (by simp)]
    rw [Plain_eq] at h
    simp [Int64, h]

/-- C16 at the collection of `TestNameValues`: `age` read as `int` and `man` read as `bool` -/
theorem generic_agrees_with_typed_witness :
    (NameValueGet asciiLib (GoType.sint Signed.int) ⟨[("name", Value.str "Zaldy"),
        ("band", Value.str "Razzie"), ("active", Value.bool false), ("age", Value.str "48"),
        ("man", Value.str "true")], false⟩ "age").1
      = some (Value.sint Signed.int (Int_ asciiLib ⟨[("name", Value.str "Zaldy"),
        ("band", Value.str "Razzie"), ("active", Value.bool false), ("age", Value.str "48"),
        ("man", Value.str "true")], false⟩ "age").1.1)
    ∧ (NameValueGet asciiLib GoType.bool ⟨[("name", Value.str "Zaldy"),
        ("band", Value.str "Razzie"), ("active", Value.bool false), ("age", Value.str "48"),
        ("man", Value.str "true")], false⟩ "man").1
      = some (Value.bool (Bool_ asciiLib ⟨[("name", Value.str "Zaldy"),
        ("band", Value.str "Razzie"), ("active", Value.bool false), ("age", Value.str "48"),
        ("man", Value.str "true")], false⟩ "man").1.1)
    ∧ (NameValueGet asciiLib GoType.string ⟨[("name", Value.str "Zaldy"),
        ("band", Value.str "Razzie"), ("active", Value.bool false), ("age", Value.str "48"),
        ("man", Value.str "true")], false⟩ "namex").1
      = some (Value.str (String_ asciiLib ⟨[("name", Value.str "Zaldy"),
        ("band", Value.str "Razzie"), ("active", Value.bool false), ("age", Value.str "48"),
        ("man", Value.str "true")], false⟩ "namex").1.1) :=
  ⟨((generic_agrees_with_typed asciiLib ⟨[("name", Value.str "Zaldy"),
        ("band", Value.str "Razzie"), ("active", Value.bool false), ("age", Value.str "48"),
        ("man", Value.str "true")], false⟩ "age").2.1 "48" (by decide)).2.2.1
      (Or.inl (by decide)),
    ((generic_agrees_with_typed asciiLib ⟨[("name", Value.str "Zaldy"),
        ("band", Value.str "Razzie"), ("active", Value.bool false), ("age", Value.str "48"),
        ("man", Value.str "true")], false⟩ "man").2.1 "true" (by decide)).2.2.2 (by decide),
    ((generic_agrees_with_typed asciiLib ⟨[("name", Value.str "Zaldy"),
        ("band", Value.str "Razzie"), ("active", Value.bool false), ("age", Value.str "48"),
        ("man", Value.str "true")], false⟩ "namex").1 (by decide)).1⟩

/-- C16 fails as stated. With `yes` stored, `Bool` returns `true` and `NameValueGet[bool]`,
which asks `strconv.ParseBool`, returns `false`; with `T` stored it is the other way round.
With `4294967296` stored and an `int` of 64 bits, `Int` returns `4294967296` and
`NameValueGet[int]`, which parses into 32 bits, returns `2147483647`. -/
theorem generic_differs_from_typed :
    ((Bool_ asciiLib ⟨[("man", Value.str "yes"), ("t", Value.str "T"),
        ("age", Value.str "4294967296")], false⟩ "man").1 = (true, true)
      ∧ (NameValueGet asciiLib GoType.bool ⟨[("man", Value.str "yes"), ("t", Value.str "T"),
        ("age", Value.str "4294967296")], false⟩ "man").1 = some (Value.bool false))
    ∧ ((Bool_ asciiLib ⟨[("man", Value.str "yes"), ("t", Value.str "T"),
        ("age", Value.str "4294967296")], false⟩ "t").1 = (false, true)
      ∧ (NameValueGet asciiLib GoType.bool ⟨[("man", Value.str "yes"), ("t", Value.str "T"),
        ("age", Value.str "4294967296")], false⟩ "t").1 = some (Value.bool true))
    ∧ ((Int_ asciiLib ⟨[("man", Value.str "yes"), ("t", Value.str "T"),
        ("age", Value.str "4294967296")], false⟩ "age").1 = (4294967296, true)
      ∧ (NameValueGet asciiLib (GoType.sint Signed.int) ⟨[("man", Value.str "yes"),
        ("t", Value.str "T"), ("age", Value.str "4294967296")], false⟩ "age").1
        = some (Value.sint Signed.int 2147483647)) := by
  decide

/-! ## Facts about the state of the collection -/

theorem ensurePrepared_idem (lib : GoLib) (nvp : NameValues) :
    ensurePrepared lib (ensurePrepared lib nvp) = ensurePrepared lib nvp := by
  unfold ensurePrepared
  by_cases h : nvp.prepared = true
  · simp [h]
  · simp [h, prepare]

theorem ensurePrepared_of_prepared (lib : GoLib) (nvp : NameValues) (h : nvp.prepared = true) :
    ensurePrepared lib nvp = nvp := by
  unfold ensurePrepared
  simp [h]

theorem String_state (lib : GoLib) (nvp : NameValues) (name : String) :
    (String_ lib nvp name).2 = ensurePrepared lib nvp := by
  unfold String_
  dsimp only
  split
  · rfl
  · split <;> rfl

theorem Call_run_state (lib : GoLib) (nvp : NameValues) (c : Call) :
    (c.run lib nvp).2 = ensurePrepared lib nvp := by
  cases c with
  | exist name => rfl
  | text name => exact String_state lib nvp name
  | int name =>
    simp only [Call.run, Int_]
    split
    · rfl
    · split <;> rfl
  | int64 name =>
    simp only [Call.run, Int64]
    split
    · rfl
    · split <;> rfl
  | float64 name =>
    simp only [Call.run, Float64]
    split
    · rfl
    · split <;> rfl
  | bool name =>
    simp only [Call.run, Bool_]
    split <;> exact String_state lib nvp name
  | plain name => rfl
  | decimal name =>
    simp only [Call.run, Decimal]
    split
    · rfl
    · split <;> rfl

theorem Call_run_prepared (lib : GoLib) (nvp : NameValues) (c : Call) :
    (c.run lib (ensurePrepared lib nvp)).1 = (c.run lib nvp).1 := by
  cases c <;>
    simp only [Call.run, Exists, String_, Int_, Int64, Float64, Bool_, Plain, Decimal,
      ensurePrepared_idem]

theorem String_congr (lib : GoLib) (nvp nvp' : NameValues) (name : String)
    (h : ∀ k, mapLookup (ensurePrepared lib nvp).Pair k
      = mapLookup (ensurePrepared lib nvp').Pair k) :
    (String_ lib nvp name).1 = (String_ lib nvp' name).1 := by
  simp only [String_, h]
  split
  · rfl
  · split <;> rfl

theorem Call_run_congr (lib : GoLib) (nvp nvp' : NameValues) (c : Call)
    (h : ∀ k, mapLookup (ensurePrepared lib nvp).Pair k
      = mapLookup (ensurePrepared lib nvp').Pair k) :
    (c.run lib nvp).1 = (c.run lib nvp').1 := by
  cases c with
  | exist name => simp only [Call.run, Exists, h]
  | text name => simp only [Call.run, String_congr lib nvp nvp' name h]
  | int name =>
    simp only [Call.run, Int_, h]
    split
    · rfl
    · split <;> rfl
  | int64 name =>
    simp only [Call.run, Int64, h]
    split
    · rfl
    · split <;> rfl
  | float64 name =>
    simp only [Call.run, Float64, h]
    split
    · rfl
    · split <;> rfl
  | bool name =>
    simp only [Call.run, Bool_, String_congr lib nvp nvp' name h]
    split <;> rfl
  | plain name => simp only [Call.run, Plain, h]
  | decimal name =>
    simp only [Call.run, Decimal, h]
    split
    · rfl
    · split <;> rfl

theorem mapLookup_perm (l l' : GoMap) (hl : l.Pairwise (fun a b => a.1 ≠ b.1))
    (hperm : l'.Perm l) (k : String) : mapLookup l k = mapLookup l' k := by
  have hl' : l'.Pairwise (fun a b => a.1 ≠ b.1) :=
    (hperm.pairwise_iff (fun {x y} (h : x.1 ≠ y.1) => fun e => h e.symm)).2 hl
  by_cases hex : ∃ v, (k, v) ∈ l
  · obtain ⟨v, hv⟩ := hex
    rw [mapLookup_mem l k v hl hv, mapLookup_mem l' k v hl' (hperm.mem_iff.2 hv)]
  · have hno : ∀ e ∈ l, e.1 ≠ k := by
      intro e he hk
      exact hex ⟨e.2, by rw [← hk]; exact he⟩
    rw [mapLookup_absent l k hno,
      mapLookup_absent l' k (fun e he => hno e (hperm.mem_iff.1 he))]

theorem LowerDistinct_keys (lib : GoLib) (m : GoMap) (h : LowerDistinct lib m) :
    m.Pairwise (fun a b => a.1 ≠ b.1) := by
  unfold LowerDistinct at h
  exact h.imp (fun hab heq => hab (by rw [heq]))

theorem LowerDistinct_perm (lib : GoLib) (m m' : GoMap) (h : LowerDistinct lib m)
    (hperm : m'.Perm m) : LowerDistinct lib m' := by
  unfold LowerDistinct at h ⊢
  exact (hperm.pairwise_iff
    (fun {x y} (hxy : lib.toLower x.1 ≠ lib.toLower y.1) => fun e => hxy e.symm)).2 h

theorem ensurePrepared_perm (lib : GoLib) (nvp nvp' : NameValues)
    (hflag : nvp'.prepared = nvp.prepared) (hperm : nvp'.Pair.Perm nvp.Pair)
    (hd : LowerDistinct lib nvp.Pair) (k : String) :
    mapLookup (ensurePrepared lib nvp).Pair k = mapLookup (ensurePrepared lib nvp').Pair k := by
  have hd' := LowerDistinct_perm lib nvp.Pair nvp'.Pair hd hperm
  unfold ensurePrepared
  by_cases hp : nvp.prepared = true
  · rw [if_pos hp, if_pos (hflag.trans hp)]
    exact mapLookup_perm _ _ (LowerDistinct_keys lib _ hd) hperm k
  · rw [if_neg hp, if_neg (by rw [hflag]; exact hp), prepare_distinct lib nvp hd,
      prepare_distinct lib nvp' hd']
    refine mapLookup_perm _ _ ?_ (hperm.map _) k
    rw [List.pairwise_map]
    exact hd

/-- C19 as the code has it. Accessor order does not matter when no two keys of the collection
have the same lower case: for two calls, each one of `Exists`, `String`, `Int`, `Int64`,
`Float64`, `Bool`, `Plain`, `Decimal` with its own name, performing the first and then the
second on the collection yields the same pair of results as performing the second and then the
first on an identical collection, that is one with the same entries and the same `prepared`
flag, in whatever order the entries of either map are ranged over. -/
theorem accessor_order_irrelevant (lib : GoLib) (nvp nvp' : NameValues) (c₁ c₂ : Call)
    (hd : LowerDistinct lib nvp.Pair) (hflag : nvp'.prepared = nvp.prepared)
    (hperm : nvp'.Pair.Perm nvp.Pair) :
    ((c₁.run lib nvp).1, (c₂.run lib (c₁.run lib nvp).2).1)
      = ((c₁.run lib (c₂.run lib nvp').2).1, (c₂.run lib nvp').1) := by
  have h := ensurePrepared_perm lib nvp nvp' hflag hperm hd
  rw [Call_run_state, Call_run_state, Call_run_prepared, Call_run_prepared,
    Call_run_congr lib nvp nvp' c₁ h, Call_run_congr lib nvp nvp' c₂ h]

/-- C19 at `{"Key1": "on", "KEY2": "7"}`: `Bool("key1")` then `Int("key2")`, against
`Int("key2")` then `Bool("key1")` on the same entries ranged over in the other order -/
theorem accessor_order_irrelevant_witness :
    LowerDistinct asciiLib [("Key1", Value.str "on"), ("KEY2", Value.str "7")]
    ∧ (((Call.bool "key1").run asciiLib ⟨[("Key1", Value.str "on"), ("KEY2", Value.str "7")],
          false⟩).1,
        ((Call.int "key2").run asciiLib (((Call.bool "key1").run asciiLib
          ⟨[("Key1", Value.str "on"), ("KEY2", Value.str "7")], false⟩).2)).1)
      = (((Call.bool "key1").run asciiLib (((Call.int "key2").run asciiLib
          ⟨[("KEY2", Value.str "7"), ("Key1", Value.str "on")], false⟩).2)).1,
        ((Call.int "key2").run asciiLib ⟨[("KEY2", Value.str "7"), ("Key1", Value.str "on")],
          false⟩).1)
    ∧ ((Call.bool "key1").run asciiLib ⟨[("Key1", Value.str "on"), ("KEY2", Value.str "7")],
          false⟩).1 = Outcome.boolean (true, true) :=
  ⟨by unfold LowerDistinct; decide,
    accessor_order_irrelevant asciiLib ⟨[("Key1", Value.str "on"), ("KEY2", Value.str "7")],
      false⟩ ⟨[("KEY2", Value.str "7"), ("Key1", Value.str "on")], false⟩
      (Call.bool "key1") (Call.int "key2") (by unfold LowerDistinct; decide) rfl
      (List.Perm.swap _ _ _),
    by decide⟩

/-- C19 fails as stated: the collection `{"A": "1", "a": "2"}` has two keys with the same lower
case, so what `prepare` leaves under `a` depends on the order in which the map is ranged over.
Ranged over as `A`, `a`, `String("a")` then `Exists("a")` yields `("2", true)` and `true`;
on an identical collection ranged over as `a`, `A`, `Exists("a")` then `String("a")` yields
`true` and `("1", true)`. -/
theorem accessor_results_depend_on_range_order :
    [("a", Value.str "2"), ("A", Value.str "1")].Perm [("A", Value.str "1"), ("a", Value.str "2")]
    ∧ ((Call.text "a").run asciiLib ⟨[("A", Value.str "1"), ("a", Value.str "2")], false⟩).1
      = Outcome.text ("2", true)
    ∧ ((Call.exist "a").run asciiLib (((Call.text "a").run asciiLib
        ⟨[("A", Value.str "1"), ("a", Value.str "2")], false⟩).2)).1 = Outcome.flag true
    ∧ ((Call.exist "a").run asciiLib ⟨[("a", Value.str "2"), ("A", Value.str "1")], false⟩).1
      = Outcome.flag true
    ∧ ((Call.text "a").run asciiLib (((Call.exist "a").run asciiLib
        ⟨[("a", Value.str "2"), ("A", Value.str "1")], false⟩).2)).1 = Outcome.text ("1", true)
    ∧ (((Call.text "a").run asciiLib ⟨[("A", Value.str "1"), ("a", Value.str "2")], false⟩).1,
        ((Call.exist "a").run asciiLib (((Call.text "a").run asciiLib
          ⟨[("A", Value.str "1"), ("a", Value.str "2")], false⟩).2)).1)
      ≠ (((Call.text "a").run asciiLib (((Call.exist "a").run asciiLib
          ⟨[("a", Value.str "2"), ("A", Value.str "1")], false⟩).2)).1,
        ((Call.exist "a").run asciiLib ⟨[("a", Value.str "2"), ("A", Value.str "1")],
          false⟩).1) := by
  refine ⟨List.Perm.swap _ _ _, ?_, ?_, ?_, ?_, ?_⟩ <;> decide

/-! ## Facts about `prepare` on any collection -/

theorem mem_mapSet (m : GoMap) (k : String) (v : Value) (e : String × Value)
    (h : e ∈ mapSet m k v) : e.1 = k ∨ e ∈ m := by
  induction m with
  | nil =>
    simp only [mapSet, List.mem_singleton] at h
    left
    rw [h]
  | cons x t ih =>
    obtain ⟨a, b⟩ := x
    by_cases ha : a = k
    · simp only [mapSet, ha, if_true, List.mem_cons] at h
      rcases h with h | h
      · left
        rw [h]
      · right
        exact List.mem_cons_of_mem _ h
    · simp only [mapSet, ha, if_false, List.mem_cons] at h
      rcases h with h | h
      · right
        rw [h]
        exact List.mem_cons_self _ _
      · rcases ih h with h1 | h1
        · exact Or.inl h1
        · exact Or.inr (List.mem_cons_of_mem _ h1)

theorem prepareMove_np (lib : GoLib) (keys : List String) (np pair : GoMap)
    (hnd : np.Pairwise (fun a b => a.1 ≠ b.1)) (hlow : ∀ e ∈ np, ∃ s, e.1 = lib.toLower s) :
    ((prepareMove lib keys (np, pair)).1).Pairwise (fun a b => a.1 ≠ b.1)
    ∧ ∀ e ∈ (prepareMove lib keys (np, pair)).1, ∃ s, e.1 = lib.toLower s := by
  induction keys generalizing np pair with
  | nil => exact ⟨hnd, hlow⟩
  | cons n ns ih =>
    simp only [prepareMove]
    apply ih
    · exact mapSet_keys_nodup _ _ _ hnd
    · intro e he
      rcases mem_mapSet _ _ _ e he with h | h
      · exact ⟨n, h⟩
      · exact hlow e h

theorem prepareMove_rest (lib : GoLib) (keys : List String) (np pair : GoMap) :
    (prepareMove lib keys (np, pair)).2 = pair.filter (fun e => decide (e.1 ∉ keys)) := by
  induction keys generalizing np pair with
  | nil => simp [prepareMove]
  | cons n ns ih =>
    simp only [prepareMove]
    rw [ih]
    unfold mapDelete
    rw [List.filter_filter]
    apply List.filter_congr
    intro e _
    simp only [List.mem_cons, not_or, ne_eq, decide_not, Bool.decide_and]
    exact Bool.and_comm _ _

theorem prepare_normal (lib : GoLib) (nvp : NameValues) :
    ((prepare lib nvp).Pair).Pairwise (fun a b => a.1 ≠ b.1)
    ∧ (∀ e ∈ (prepare lib nvp).Pair, ∃ s, e.1 = lib.toLower s)
    ∧ (prepare lib nvp).prepared = true := by
  have hnp := prepareMove_np lib (nvp.Pair.map Prod.fst) [] nvp.Pair List.Pairwise.nil
    (by simp)
  have hrest : (prepareMove lib (nvp.Pair.map Prod.fst) ([], nvp.Pair)).2 = [] := by
    rw [prepareMove_rest, List.filter_eq_nil_iff]
    intro e he
    simp only [decide_not, Bool.not_eq_true', decide_eq_false_iff_not, not_not]
    exact List.mem_map.2 ⟨e, he, rfl⟩
  have hpair : (prepare lib nvp).Pair = (prepareMove lib (nvp.Pair.map Prod.fst) ([], nvp.Pair)).1 := by
    unfold prepare
    simp only [hrest]
    exact prepareCopy_distinct _ [] _ hnp.1 (by simp)
  rw [hpair]
  exact ⟨hnp.1, hnp.2, rfl⟩

/-- C18 as the code has it. Normalization invariant: when `strings.ToLower` leaves its own
results unchanged, after any of `Exists`, `String`, `Int`, `Int64`, `Float64`, `Bool`, `Plain`
or `Decimal` has run on a collection that was not yet marked prepared, every key of its map is
lower case, no two keys have the same lower case, and the collection is marked prepared; and
running any of these on a collection that is marked prepared leaves the collection, with every
entry of its map, as it was. -/
theorem normalization_invariant (lib : GoLib)
    (hidem : ∀ s, lib.toLower (lib.toLower s) = lib.toLower s) (nvp : NameValues) (c : Call) :
    (nvp.prepared = false →
      KeysLower lib (c.run lib nvp).2.Pair
      ∧ LowerDistinct lib (c.run lib nvp).2.Pair
      ∧ (c.run lib nvp).2.prepared = true)
    ∧ (nvp.prepared = true → (c.run lib nvp).2 = nvp)
    ∧ ∀ c' : Call, (c'.run lib (c.run lib nvp).2).2 = (c.run lib nvp).2 := by
  refine ⟨?_, ?_, ?_⟩
  · intro hp
    rw [Call_run_state]
    have he : ensurePrepared lib nvp = prepare lib nvp := by
      unfold ensurePrepared
      simp [hp]
    rw [he]
    obtain ⟨hnd, hlow, hflag⟩ := prepare_normal lib nvp
    have hkl : KeysLower lib (prepare lib nvp).Pair := by
      intro e he
      obtain ⟨s, hs⟩ := hlow e he
      rw [hs, hidem]
    refine ⟨hkl, ?_, hflag⟩
    unfold LowerDistinct
    refine hnd.imp_of_mem ?_
    intro a b ha hb hab
    rw [hkl a ha, hkl b hb]
    exact hab
  · intro hp
    rw [Call_run_state, ensurePrepared_of_prepared lib nvp hp]
  · intro c'
    rw [Call_run_state, Call_run_state, ensurePrepared_idem]

theorem asciiLowerChar_idem (c : Char) : asciiLowerChar (asciiLowerChar c) = asciiLowerChar c := by
  unfold asciiLowerChar
  by_cases h : 65 ≤ c.toNat ∧ c.toNat ≤ 90
  · have hn : (Char.ofNat (c.toNat + 32)).toNat = c.toNat + 32 := by
      obtain ⟨h1, h2⟩ := h
      generalize c.toNat = n at h1 h2
      interval_cases n <;> rfl
    simp only [h, and_self, if_true, hn]
    rw [if_neg (by omega)]
  · simp [h]

theorem asciiLib_toLower_idem (s : String) :
    asciiLib.toLower (asciiLib.toLower s) = asciiLib.toLower s := by
  show (⟨(s.data.map asciiLowerChar).map asciiLowerChar⟩ : String) = ⟨s.data.map asciiLowerChar⟩
  rw [List.map_map]
  congr 1
  apply List.map_congr_left
  intro c _
  exact asciiLowerChar_idem c

/-- C18 at `{"Key1": "a", "KEY1": "b", "key2": "c"}` after `Exists("x")` -/
theorem normalization_invariant_witness :
    (KeysLower asciiLib ((Call.exist "x").run asciiLib ⟨[("Key1", Value.str "a"),
        ("KEY1", Value.str "b"), ("key2", Value.str "c")], false⟩).2.Pair
      ∧ LowerDistinct asciiLib ((Call.exist "x").run asciiLib ⟨[("Key1", Value.str "a"),
        ("KEY1", Value.str "b"), ("key2", Value.str "c")], false⟩).2.Pair
      ∧ ((Call.exist "x").run asciiLib ⟨[("Key1", Value.str "a"),
        ("KEY1", Value.str "b"), ("key2", Value.str "c")], false⟩).2.prepared = true)
    ∧ ((Call.exist "x").run asciiLib ⟨[("Key1", Value.str "a"),
        ("KEY1", Value.str "b"), ("key2", Value.str "c")], false⟩).2
      = ⟨[("key1", Value.str "b"), ("key2", Value.str "c")], true⟩ :=
  ⟨(normalization_invariant asciiLib asciiLib_toLower_idem ⟨[("Key1", Value.str "a"),
        ("KEY1", Value.str "b"), ("key2", Value.str "c")], false⟩ (Call.exist "x")).1 rfl,
    by decide⟩

/-- C18 fails as stated: a collection on which `Exists` has run is marked prepared, and once
its owner has added the key `Key`, a further `Exists` leaves the key as it is, not lower
case. -/
theorem prepared_collection_keeps_keys :
    (Exists asciiLib (addEntry (Exists asciiLib ⟨[], false⟩ "key").2 "Key" (Value.str "v"))
        "key").2 = ⟨[("Key", Value.str "v")], true⟩
    ∧ asciiLib.toLower "Key" ≠ "Key"
    ∧ ¬ KeysLower asciiLib (Exists asciiLib
        (addEntry (Exists asciiLib ⟨[], false⟩ "key").2 "Key" (Value.str "v")) "key").2.Pair := by
  refine ⟨by decide, by decide, ?_⟩
  intro h
  exact absurd (h ("Key", Value.str "v") (by decide)) (by decide)

/-- C20 as the code has it. Keys added after the first lookup: on a collection that is marked
prepared, once the owner adds an entry under a key `k` with value `v`, `Exists(q)` returns true
and `Plain(q)` returns `(v, true)` for every name `q` whose lower case is `k` itself; so when
`k` is lower case already, for every `q` whose lower case is that of `k`. -/
theorem added_key_lookup (lib : GoLib) (nvp : NameValues) (k : String) (v : Value)
    (hprep : nvp.prepared = true) :
    (∀ q : String, lib.toLower q = k →
      (Exists lib (addEntry nvp k v) q).1 = true
      ∧ (Plain lib (addEntry nvp k v) q).1 = (v, true))
    ∧ (lib.toLower k = k → ∀ q : String, lib.toLower q = lib.toLower k →
      (Exists lib (addEntry nvp k v) q).1 = true
      ∧ (Plain lib (addEntry nvp k v) q).1 = (v, true)) := by
  have hmain : ∀ q : String, lib.toLower q = k →
      (Exists lib (addEntry nvp k v) q).1 = true
      ∧ (Plain lib (addEntry nvp k v) q).1 = (v, true) := by
    intro q hq
    have hp : (addEntry nvp k v).prepared = true := hprep
    have hl : mapLookup (addEntry nvp k v).Pair (lib.toLower q) = (v, true) := by
      unfold addEntry
      rw [mapLookup_mapSet, if_pos hq]
    simp [Exists, Plain, ensurePrepared, hp, hl]
  refine ⟨hmain, ?_⟩
  intro hk q hq
  exact hmain q (hq.trans hk)

/-- C20 at a collection on which `Exists` has run and to which the key `key2` is added, queried
with `KEY2` -/
theorem added_key_lookup_witness :
    (Exists asciiLib (addEntry (Exists asciiLib ⟨[("Key1", Value.str "a")], false⟩ "x").2
        "key2" (Value.sint Signed.int 3)) "KEY2").1 = true
    ∧ (Plain asciiLib (addEntry (Exists asciiLib ⟨[("Key1", Value.str "a")], false⟩ "x").2
        "key2" (Value.sint Signed.int 3)) "KEY2").1 = (Value.sint Signed.int 3, true) :=
  (added_key_lookup asciiLib (Exists asciiLib ⟨[("Key1", Value.str "a")], false⟩ "x").2
    "key2" (Value.sint Signed.int 3) rfl).2 (by decide) "KEY2" (by decide)

/-- C20 fails as stated: on a collection on which `Exists` has run, the owner adds the key
`Key2`; the lower case of `KEY2` is that of `Key2`, yet `Exists("KEY2")` is false and
`Plain("KEY2")` is `(nil, false)`, and the same for `Key2` itself. -/
theorem added_key_not_found :
    asciiLib.toLower "KEY2" = asciiLib.toLower "Key2"
    ∧ (Exists asciiLib (addEntry (Exists asciiLib ⟨[("Key1", Value.str "a")], false⟩ "x").2
        "Key2" (Value.sint Signed.int 3)) "KEY2").1 = false
    ∧ (Plain asciiLib (addEntry (Exists asciiLib ⟨[("Key1", Value.str "a")], false⟩ "x").2
        "Key2" (Value.sint Signed.int 3)) "KEY2").1 = (Value.nil, false)
    ∧ (Exists asciiLib (addEntry (Exists asciiLib ⟨[("Key1", Value.str "a")], false⟩ "x").2
        "Key2" (Value.sint Signed.int 3)) "Key2").1 = false := by
  decide

/-! ## Facts about `anyToStr` -/

theorem digitChar_eq (d : Nat) (h : d < 10) : digitChar d = Nat.digitChar d := by
  interval_cases d <;> rfl

theorem formatDigits_toDigitsCore (fuel n : Nat) (acc : List Char) :
    formatDigits fuel n acc = Nat.toDigitsCore 10 fuel n acc := by
  induction fuel generalizing n acc with
  | zero => rfl
  | succ f ih =>
    rw [formatDigits, Nat.toDigitsCore]
    by_cases h10 : n < 10
    · have h0 : n / 10 = 0 := by omega
      have hm : n % 10 = n := by omega
      simp only [h10, if_true, h0, hm, digitChar_eq n h10]
    · have h0 : ¬ (n / 10 = 0) := by omega
      simp only [h10, if_false, h0]
      rw [ih, digitChar_eq _ (Nat.mod_lt n (by norm_num))]

theorem FormatUint_toString (n : Nat) : FormatUint n = toString n := by
  unfold FormatUint
  rw [formatDigits_toDigitsCore]
  rfl

theorem FormatInt_toString (n : Int) : FormatInt n = toString n := by
  cases n with
  | ofNat m =>
    have h : ¬ ((Int.ofNat m) < 0) := by simp
    unfold FormatInt
    rw [if_neg h]
    exact FormatUint_toString m
  | negSucc m =>
    have h : (Int.negSucc m) < 0 := Int.negSucc_lt_zero m
    unfold FormatInt
    rw [if_pos h, formatDigits_toDigitsCore]
    rfl

/-- C21. Stringification rules: `anyToStr` renders a value of each signed and each unsigned
integer type as its base-10 numeral, `true` as `true` and `false` as `false`, a string as
itself and nil as the empty string; a nil reference as the empty string for a string
reference, as `0` for a reference to an integer and as `false` for a boolean reference; a
reference that is present as it renders what it points to; and a value of a type it has no
case for, such as a decimal, as the empty string. -/
theorem stringification_rules (lib : GoLib) :
    (∀ (k : Signed) (n : Int), anyToStr lib (Value.sint k n) = toString n)
    ∧ (∀ (k : Unsigned) (n : Nat), anyToStr lib (Value.uint k n) = toString n)
    ∧ anyToStr lib (Value.bool true) = "true"
    ∧ anyToStr lib (Value.bool false) = "false"
    ∧ (∀ s : String, anyToStr lib (Value.str s) = s)
    ∧ anyToStr lib Value.nil = ""
    ∧ anyToStr lib (Value.ptrStr none) = ""
    ∧ (∀ k : Signed, anyToStr lib (Value.ptrSint k none) = "0")
    ∧ (∀ k : Unsigned, anyToStr lib (Value.ptrUint k none) = "0")
    ∧ anyToStr lib (Value.ptrBool none) = "false"
    ∧ (∀ s : String, anyToStr lib (Value.ptrStr (some s)) = anyToStr lib (Value.str s))
    ∧ (∀ (k : Signed) (n : Int),
        anyToStr lib (Value.ptrSint k (some n)) = anyToStr lib (Value.sint k n))
    ∧ (∀ (k : Unsigned) (n : Nat),
        anyToStr lib (Value.ptrUint k (some n)) = anyToStr lib (Value.uint k n))
    ∧ (∀ b : Bool, anyToStr lib (Value.ptrBool (some b)) = anyToStr lib (Value.bool b))
    ∧ (∀ f : float32, anyToStr lib (Value.ptrFloat32 (some f)) = anyToStr lib (Value.float32 f))
    ∧ (∀ f : float64, anyToStr lib (Value.ptrFloat64 (some f)) = anyToStr lib (Value.float64 f))
    ∧ (∀ t : Time, anyToStr lib (Value.ptrTime (some t)) = anyToStr lib (Value.time t))
    ∧ (∀ d : ssd.Decimal, anyToStr lib (Value.decimal d) = "")
    ∧ (∀ tag : Nat, anyToStr lib (Value.other tag) = "") := by
  refine ⟨?_, ?_, rfl, rfl, ?_, rfl, rfl, ?_, ?_, rfl, ?_, ?_, ?_, ?_, ?_, ?_, ?_, ?_, ?_⟩
  · intro k n
    exact FormatInt_toString n
  · intro k n
    exact FormatUint_toString n
  · exact fun s => rfl
  · exact fun k => rfl
  · exact fun k => rfl
  · exact fun s => rfl
  · exact fun k n => rfl
  · exact fun k n => rfl
  · exact fun b => rfl
  · exact fun f => rfl
  · exact fun f => rfl
  · exact fun t => rfl
  · exact fun d => rfl
  · exact fun tag => rfl

/-! ## Facts about the passes of `Interpolate` -/

theorem expandAll_congr (σ : List Char → List Char) (d d' : List (List Char)) (ts : List Tok)
    (h : ∀ w, w ∈ d ↔ w ∈ d') : expandAll σ d ts = expandAll σ d' ts := by
  induction ts with
  | nil => rfl
  | cons tk ts ih =>
    cases tk with
    | lit c => simp only [expandAll, Tok.expand, ih]
    | ph w =>
      simp only [expandAll, Tok.expand, ih]
      by_cases hw : w ∈ d
      · rw [if_pos hw, if_pos ((h w).1 hw)]
      · rw [if_neg hw, if_neg (fun hc => hw ((h w).2 hc))]

theorem interpolateLoop_take (lib : GoLib) (base : String) (pair : GoMap)
    (hvals : ∀ e ∈ pair, '$' ∉ (anyToStr lib e.2).data)
    (hbase : DollarsOpenMatches base.data) (i : Nat) :
    ((interpolateLoop lib pair ((FindAllString base).take i) base []).1).data
      = expandAll (replacementOf lib pair) ((matchWords base).take i)
          (tokenizeFrom 0 base.data) := by
  have hts := tokenizeFrom_ok 0 base.data hbase
  have hws : ∀ w ∈ (matchWords base).take i, ∀ c ∈ w, wordChar c = true :=
    fun w hw => phWords_ok _ hts w (List.mem_of_mem_take hw)
  have hloop := interpolateLoop_expand lib pair (tokenizeFrom 0 base.data) hvals hts
    ((matchWords base).take i) hws [] base [] (by rw [expandAll_nil_tokenizeFrom]; rfl)
  rw [FindAllString_matchWords, ← List.map_take, hloop]
  exact expandAll_congr _ _ _ _ (by simp)

/-- C22. Interpolation is a simultaneous substitution on well-formed input: for a template in
which every dollar sign opens a match of the pattern and a collection whose keys are pairwise
distinct case-insensitively and whose values have no dollar sign in their string form, in
whatever order the map is ranged over, the string after the first `i` replace-all passes is
the template in which the matches with one of the first `i` words are replaced by the string
form of their value, or by `"0"` when no entry has the name, and every other match and every
other character stands as written: no pass rewrites what an earlier pass put in. The string
returned is the template with all matches replaced at once. -/
theorem interpolate_passes (lib : GoLib) (base : String) (nv : NameValues)
    (hkeys : FoldDistinct lib nv.Pair)
    (hvals : ∀ e ∈ nv.Pair, '$' ∉ (anyToStr lib e.2).data)
    (hbase : DollarsOpenMatches base.data) (order : GoMap) (horder : order.Perm nv.Pair) :
    (∀ i : Nat,
      ((interpolateLoop lib order ((FindAllString base).take i) base []).1).data
        = expandAll (replacementOf lib nv.Pair) ((matchWords base).take i)
            (tokenizeFrom 0 base.data))
    ∧ expandAll (replacementOf lib nv.Pair) [] (tokenizeFrom 0 base.data) = base.data
    ∧ expandAll (replacementOf lib nv.Pair) (matchWords base) (tokenizeFrom 0 base.data)
        = substituteFrom (replacementOf lib nv.Pair) 0 base.data
    ∧ (Interpolate lib base ⟨order, nv.prepared⟩).1
        = ⟨substituteFrom (replacementOf lib nv.Pair) 0 base.data⟩ := by
  have hvals' : ∀ e ∈ order, '$' ∉ (anyToStr lib e.2).data :=
    fun e he => hvals e (horder.mem_iff.1 he)
  have hrep := replacementOf_perm lib nv.Pair order hkeys horder
  refine ⟨?_, ?_, ?_, ?_⟩
  · intro i
    rw [interpolateLoop_take lib base order hvals' hbase i, hrep]
  · rw [expandAll_nil_tokenizeFrom]
    rfl
  · exact (substituteFrom_expandAll _ 0 base.data (matchWords base) (fun w hw => hw)).symm
  · rw [Interpolate_substituteAll lib base ⟨order, nv.prepared⟩ hvals' hbase]
    unfold substituteAll
    rw [hrep]

/-- C22 at the template `$\x7ba\x7d+$\x7bb\x7d+$\x7ba\x7d` over `{"B": "y", "a": 1}`, ranged
over in the other order: after one pass both matches of `a` are replaced and the match of `b`
stands, and the string returned is `1+y+1` -/
theorem interpolate_passes_witness :
    (interpolateLoop asciiLib [("a", Value.sint Signed.int 1), ("B", Value.str "y")]
        ((FindAllString "$\x7ba\x7d+$\x7bb\x7d+$\x7ba\x7d").take 1)
        "$\x7ba\x7d+$\x7bb\x7d+$\x7ba\x7d" []).1 = "1+$\x7bb\x7d+1"
    ∧ (Interpolate asciiLib "$\x7ba\x7d+$\x7bb\x7d+$\x7ba\x7d"
        ⟨[("a", Value.sint Signed.int 1), ("B", Value.str "y")], false⟩).1 = "1+y+1" := by
  have h := interpolate_passes asciiLib "$\x7ba\x7d+$\x7bb\x7d+$\x7ba\x7d"
    ⟨[("B", Value.str "y"), ("a", Value.sint Signed.int 1)], false⟩
    (by unfold FoldDistinct; decide) (by decide) (dollarsOpen_sound _ (by decide))
    [("a", Value.sint Signed.int 1), ("B", Value.str "y")] (List.Perm.swap _ _ _)
  refine ⟨?_, h.2.2.2.trans (by decide)⟩
  have h1 := h.1 1
  have e : ∀ s t : String, s.data = t.data → s = t := fun s t hst => by
    cases s
    cases t
    simp at hst
    rw [hst]
  exact e _ _ (h1.trans (by decide))

end NameValue
